import Mathlib

/-!
Shallow embedding of the bounded worker-pool dispatcher of the PSD thumbnail
page (`processFiles`, the inner `getAvailableWorker`, `processNextFile`,
`createWorker.onmessage`, `cleanupWorkerPool`) and of the psd worker
(`self.onmessage`, `processPsdFile`, `resizeImage`).

Modelling conventions:
- A pool worker is identified by its index in the `workerPool` array.
- A pending file is represented by the reply its execution unit will
  eventually send for it (`Reply`); payload bytes are irrelevant to the
  dispatch logic and are abstracted away there.
- Job ids (`Date.now() + Math.random()` in the source, unique per dispatch)
  are modelled as a sequential counter `nextId`; uniqueness is the only
  property the source relies on.
- The asynchronous callback structure is modelled as an atomic step
  relation: a `deliver` step performs, in source order, the synchronous
  body of `createWorker.onmessage` for the oldest message of one worker,
  followed by the per-job `messageHandler` continuation
  (`markWorkerAvailable` then `processNextFile`) when that continuation
  fires, i.e. only for `process_complete` replies.
- `dispatchLog` and `doubleSends` are ghost observation fields: they record
  the ids in dispatch order and the number of dispatches whose target
  worker already had `busy == true`, and are read by no transition.
-/

/-- The reply an execution unit will send for a job:
`process_complete` with `success: true`, `process_complete` with
`success: false` (the `processPsdFile` catch path), or `process_error`
(the outer catch in the worker message handler). -/
inductive Reply
  | completeSuccess
  | completeFailure
  | error
  deriving DecidableEq, Repr

/-- `true` for the replies the page renders as an error thumbnail. -/
def Reply.isFailure : Reply → Bool
  | .completeSuccess => false
  | .completeFailure => true
  | .error => true

/-- `const MAX_WORKERS = 3`. -/
def MAX_WORKERS : Nat := 3

/-- One entry of the `workerPool` array: the `busy` flag plus the queue of
messages posted to this worker and not yet answered (oldest first). -/
structure WorkerSt where
  busy : Bool
  inFlight : List (Nat × Reply)
  deriving DecidableEq, Repr

/-- A freshly created worker as pushed by `initializeWorkerPool`. -/
def freshWorker : WorkerSt := ⟨false, []⟩

/-- Replace the element at one index, leaving the list unchanged when the
index is out of range (array element mutation in the source). -/
def modifyAt (f : WorkerSt → WorkerSt) : List WorkerSt → Nat → List WorkerSt
  | [], _ => []
  | w :: ws, 0 => f w :: ws
  | w :: ws, i + 1 => w :: modifyAt f ws i

/-- `workerPool.find((w) => !w.busy)`: index of the first idle worker. -/
def findIdleIdx : List WorkerSt → Option Nat
  | [] => none
  | w :: ws => if w.busy then (findIdleIdx ws).map (· + 1) else some 0

/-- The inner `getAvailableWorker` of `processFiles` (part_001 lines 80-97):
marks the first idle worker busy and returns it; otherwise creates a new
busy worker when the pool is under `MAX_WORKERS`; otherwise falls back to
`workerPool[0].worker`.  The result type is `Option` so that the `null`
return demanded by the spec is expressible: the body never produces
`none`. -/
def getAvailableWorker (pool : List WorkerSt) : Option (List WorkerSt × Nat) :=
  match findIdleIdx pool with
  | some i => some (modifyAt (fun w => { w with busy := true }) pool i, i)
  | none =>
    if pool.length < MAX_WORKERS then
      some (pool ++ [{ busy := true, inFlight := [] }], pool.length)
    else
      some (pool, 0)

/-- The module-level `getAvailableWorker` (part_001 lines 355-367), shadowed
by the inner one and never called: when no worker is idle it creates a new
busy worker with no capacity check. -/
def getAvailableWorkerModule (pool : List WorkerSt) : List WorkerSt × Nat :=
  match findIdleIdx pool with
  | some i => (modifyAt (fun w => { w with busy := true }) pool i, i)
  | none => (pool ++ [{ busy := true, inFlight := [] }], pool.length)

/-- `markWorkerAvailable`: clear the `busy` flag of the given worker. -/
def markWorkerAvailable (pool : List WorkerSt) (i : Nat) : List WorkerSt :=
  modifyAt (fun w => { w with busy := false }) pool i

/-- Dispatcher state: the refs and locals of `processFiles` that the
claims are about. -/
structure DState where
  pool : List WorkerSt
  pending : List Reply
  thumbnails : List (Nat × Bool)
  processedFiles : Nat
  totalFiles : Nat
  isProcessing : Bool
  nextId : Nat
  dispatchLog : List Nat
  doubleSends : Nat
  deriving DecidableEq, Repr

/-- `processNextFile` (part_001 lines 108-191, successful-read path):
shift the next pending file, acquire a worker, post the job to it.
The ghost field `doubleSends` counts dispatches whose target worker was
already busy before the acquire. -/
def processNextFile (s : DState) : DState :=
  match s.pending with
  | [] => s
  | f :: rest =>
    match getAvailableWorker s.pool with
    | none => s
    | some (pool1, i) =>
      let wasBusy := ((s.pool.get? i).map WorkerSt.busy).getD false
      { s with
        pending := rest
        pool := modifyAt (fun w => { w with inFlight := w.inFlight ++ [(s.nextId, f)] }) pool1 i
        nextId := s.nextId + 1
        dispatchLog := s.dispatchLog ++ [s.nextId]
        doubleSends := s.doubleSends + (if wasBusy then 1 else 0) }

/-- `initializeWorkerPool` guarded by `workerPool.length === 0`. -/
def initPoolIfEmpty (pool : List WorkerSt) : List WorkerSt :=
  if pool.isEmpty then List.replicate MAX_WORKERS freshWorker else pool

/-- The initial-batch loop of `processFiles`. -/
def iterateDispatch : Nat → DState → DState
  | 0, s => s
  | k + 1, s => iterateDispatch k (processNextFile s)

/-- `processFiles` (part_001 lines 56-195): reset the result refs, lazily
initialize the pool, enqueue the files, dispatch the initial batch of
`Math.min(MAX_WORKERS, fileArray.length)` files. -/
def processFiles (s : DState) (files : List Reply) : DState :=
  if files.isEmpty then s
  else
    iterateDispatch (min MAX_WORKERS files.length)
      { s with
        thumbnails := []
        isProcessing := true
        totalFiles := files.length
        processedFiles := 0
        pool := initPoolIfEmpty s.pool
        pending := files }

/-- The completion check at the end of both `createWorker.onmessage`
branches: `if (processedFiles.value >= totalFiles.value)`. -/
def completionCheck (s : DState) : DState :=
  if s.totalFiles ≤ s.processedFiles then { s with isProcessing := false } else s

/-- Delivery of the oldest outstanding reply of worker `i`
(`createWorker.onmessage`, part_001 lines 215-311, followed by the per-job
`messageHandler`, lines 122-169): a `process_complete` reply pushes a
thumbnail (an error entry when `success` is false), bumps `processedFiles`,
then the per-job handler resolves, so the worker is marked available and
`processNextFile` runs; a `process_error` reply pushes an error thumbnail
and bumps `processedFiles`, but the per-job handler matches only
`process_complete`, so the worker is neither released nor is a next file
dispatched. -/
def deliver (s : DState) (i : Nat) : DState :=
  match (s.pool.get? i).map WorkerSt.inFlight with
  | none => s
  | some [] => s
  | some ((id, r) :: restQ) =>
    let pool1 := modifyAt (fun w => { w with inFlight := restQ }) s.pool i
    match r with
    | .completeSuccess =>
      let s1 := completionCheck
        { s with
          pool := pool1
          thumbnails := s.thumbnails ++ [(id, false)]
          processedFiles := s.processedFiles + 1 }
      processNextFile { s1 with pool := markWorkerAvailable s1.pool i }
    | .completeFailure =>
      let s1 := completionCheck
        { s with
          pool := pool1
          thumbnails := s.thumbnails ++ [(id, true)]
          processedFiles := s.processedFiles + 1 }
      processNextFile { s1 with pool := markWorkerAvailable s1.pool i }
    | .error =>
      completionCheck
        { s with
          pool := pool1
          thumbnails := s.thumbnails ++ [(id, true)]
          processedFiles := s.processedFiles + 1 }

/-- An externally visible event: a call to `processFiles`, or the arrival
of one worker reply on the main thread. -/
inductive Event
  | submit (files : List Reply)
  | deliverMsg (i : Nat)
  deriving DecidableEq, Repr

def step (s : DState) : Event → DState
  | .submit files => processFiles s files
  | .deliverMsg i => deliver s i

def run (s : DState) : List Event → DState
  | [] => s
  | e :: es => run (step s e) es

/-- The dispatcher state at page load: empty pool, nothing submitted. -/
def dInit : DState := ⟨[], [], [], 0, 0, false, 0, [], 0⟩

/-- A delivery-only schedule after a single submission. -/
def runDeliveries (s : DState) : List Nat → DState
  | [] => s
  | i :: is => runDeliveries (deliver s i) is

/-- Every message sent to a worker has been answered and handled. -/
def allDelivered (s : DState) : Bool :=
  s.pool.all (fun w => w.inFlight.isEmpty)

/-- The `data` of the message `processNextFile` posts (part_001 lines
140-151). -/
structure ProcessData where
  fileBuffer : List Nat
  fileName : String
  fileSize : Nat
  id : Nat
  deriving DecidableEq, Repr

/-- A message from the page to the worker, as destructured by the worker:
a `type` tag plus the optional `data` object. -/
structure MainToWorkerMsg where
  type : String
  data : Option ProcessData
  deriving DecidableEq, Repr

/-- The message `worker.postMessage(...)` sends in `processNextFile`. -/
def processMessage (fileBuffer : List Nat) (fileName : String)
    (fileSize : Nat) (id : Nat) : MainToWorkerMsg :=
  { type := "process_psd"
    data := some ⟨fileBuffer, fileName, fileSize, id⟩ }

/-- The `{ type: 'cleanup' }` message of `cleanupWorkerPool`. -/
def cleanupMessage : MainToWorkerMsg := { type := "cleanup", data := none }

/-- A message the psd worker posts back (`self.postMessage` in
lifecycle-worker.js lines 219-246), by constructor:
`process_complete` carries the spread of the `processPsdFile` result plus
the job id; `process_error` carries id, name and an error message but no
`success` field; `cleanup_complete` carries no data. -/
inductive WorkerMsg
  | processComplete (id : Nat) (success : Bool) (name : String)
      (errorMessage : Option String)
  | processError (id : Nat) (name : String) (errorMessage : String)
  | cleanupComplete
  deriving DecidableEq, Repr

/-- The `type` tag of a worker reply. -/
def WorkerMsg.tag : WorkerMsg → String
  | .processComplete _ _ _ _ => "process_complete"
  | .processError _ _ _ => "process_error"
  | .cleanupComplete => "cleanup_complete"

/-- The result object of `processPsdFile` (lifecycle-worker.js lines
73-106) restricted to the fields the claims mention.  `parseOk` abstracts
whether `PSD.fromDroppedFile` and the thumbnail rendering succeed; the
internal catch turns any of their failures into a returned object with
`success: false`, it never rethrows. -/
structure PsdOutcome where
  success : Bool
  name : String
  errorMessage : Option String
  deriving DecidableEq, Repr

def processPsdFile (parseOk : Bool) (fileName : String) : PsdOutcome :=
  if parseOk then
    { success := true, name := fileName, errorMessage := none }
  else
    { success := false
      name := fileName
      errorMessage := some "Could not read preview – was the file saved with \"Maximise Compatibility\"?" }

/-- `self.onmessage` of the psd worker (lifecycle-worker.js lines 207-248).
`handlerThrows` abstracts the outer try block throwing after
`processPsdFile` returned (the only way the `process_error` reply is sent,
since `processPsdFile` catches internally); its error message is modelled
by the `'Unknown error processing PSD file'` fallback.  Messages whose
`type` is neither `process_psd` nor `cleanup` produce no reply. -/
def workerOnMessage (parseOk handlerThrows : Bool)
    (m : MainToWorkerMsg) : List WorkerMsg :=
  if m.type = "process_psd" then
    match m.data with
    | none => []
    | some d =>
      if handlerThrows then
        [.processError d.id d.fileName "Unknown error processing PSD file"]
      else
        let r := processPsdFile parseOk d.fileName
        [.processComplete d.id r.success r.name r.errorMessage]
  else if m.type = "cleanup" then
    [.cleanupComplete]
  else []

/-- One externally visible action of `cleanupWorkerPool`, on the worker at
a given pool index. -/
inductive CleanupAction
  | postCleanup (i : Nat)
  | terminate (i : Nat)
  deriving DecidableEq, Repr

/-- `cleanupWorkerPool` (part_001 lines 334-352): posts
`{ type: 'cleanup' }` to every pool worker, schedules the forced
`terminate()` of each after a 100 ms delay (modelled as every post being
ordered before every termination), then clears the pool. -/
def cleanupWorkerPool (pool : List WorkerSt) :
    List WorkerSt × List CleanupAction :=
  ([], (List.range pool.length).map CleanupAction.postCleanup
        ++ (List.range pool.length).map CleanupAction.terminate)

/-- `Math.round` on the nonnegative rationals that arise in
`resizeImage`: round half away from zero, which on nonnegative input is
floor of the value plus one half. -/
def jsRound (q : ℚ) : ℤ := ⌊q + 1 / 2⌋

/-- `resizeImage` (lifecycle-worker.js lines 182-190, identically in
part_000 lines 64-72): cap dimensions at 500 × 500 preserving the aspect
ratio computed as `width / height`. -/
def resizeImage (width height : ℤ) : ℤ × ℤ :=
  if width ≤ 500 ∧ height ≤ 500 then (width, height)
  else if (1 : ℚ) < (width : ℚ) / (height : ℚ) then
    (500, jsRound (500 / ((width : ℚ) / (height : ℚ))))
  else
    (jsRound (500 * ((width : ℚ) / (height : ℚ))), 500)

/-! ### Basic lemmas about the pool-array primitives -/

theorem modifyAt_length (f : WorkerSt → WorkerSt) :
    ∀ (l : List WorkerSt) (i : Nat), (modifyAt f l i).length = l.length := by
  intro l
  induction l with
  | nil => intro i; rfl
  | cons w ws ih =>
    intro i
    cases i with
    | zero => rfl
    | succ j => simpa [modifyAt] using ih j

theorem get?_modifyAt_self (f : WorkerSt → WorkerSt) :
    ∀ (l : List WorkerSt) (i : Nat), (modifyAt f l i).get? i = (l.get? i).map f := by
  intro l
  induction l with
  | nil => intro i; cases i <;> rfl
  | cons w ws ih =>
    intro i
    cases i with
    | zero => rfl
    | succ j => simpa [modifyAt] using ih j

theorem get?_modifyAt_ne (f : WorkerSt → WorkerSt) :
    ∀ (l : List WorkerSt) (i j : Nat), j ≠ i →
      (modifyAt f l i).get? j = l.get? j := by
  intro l
  induction l with
  | nil => intro i j _; rfl
  | cons w ws ih =>
    intro i j hji
    cases i with
    | zero =>
      cases j with
      | zero => exact absurd rfl hji
      | succ j' => rfl
    | succ i' =>
      cases j with
      | zero => rfl
      | succ j' =>
        have : j' ≠ i' := fun h => hji (by simp [h])
        simpa [modifyAt] using ih i' j' this

theorem findIdleIdx_eq_none (l : List WorkerSt) :
    findIdleIdx l = none ↔ ∀ w ∈ l, w.busy = true := by
  induction l with
  | nil => simp [findIdleIdx]
  | cons w ws ih =>
    by_cases hb : w.busy
    · simp [findIdleIdx, hb, ih]
    · simp [findIdleIdx, hb]

theorem findIdleIdx_spec :
    ∀ (l : List WorkerSt) (i : Nat), findIdleIdx l = some i →
      ∃ w, l.get? i = some w ∧ w.busy = false := by
  intro l
  induction l with
  | nil => intro i h; simp [findIdleIdx] at h
  | cons w ws ih =>
    intro i h
    by_cases hb : w.busy
    · simp only [findIdleIdx, hb, if_pos, Option.map_eq_some'] at h
      obtain ⟨j, hj, rfl⟩ := h
      simpa using ih j hj
    · simp [findIdleIdx, hb] at h
      subst h
      exact ⟨w, rfl, by simpa using hb⟩

theorem completionCheck_pool (s : DState) : (completionCheck s).pool = s.pool := by
  unfold completionCheck; split <;> rfl

theorem completionCheck_thumbnails (s : DState) :
    (completionCheck s).thumbnails = s.thumbnails := by
  unfold completionCheck; split <;> rfl

theorem completionCheck_processedFiles (s : DState) :
    (completionCheck s).processedFiles = s.processedFiles := by
  unfold completionCheck; split <;> rfl

theorem completionCheck_pending (s : DState) :
    (completionCheck s).pending = s.pending := by
  unfold completionCheck; split <;> rfl

theorem completionCheck_nextId (s : DState) : (completionCheck s).nextId = s.nextId := by
  unfold completionCheck; split <;> rfl

theorem completionCheck_totalFiles (s : DState) :
    (completionCheck s).totalFiles = s.totalFiles := by
  unfold completionCheck; split <;> rfl

theorem completionCheck_dispatchLog (s : DState) :
    (completionCheck s).dispatchLog = s.dispatchLog := by
  unfold completionCheck; split <;> rfl

theorem completionCheck_doubleSends (s : DState) :
    (completionCheck s).doubleSends = s.doubleSends := by
  unfold completionCheck; split <;> rfl

theorem jsRound_le_of_le {q : ℚ} {b : ℤ} (h : q ≤ (b : ℚ)) : jsRound q ≤ b := by
  unfold jsRound
  have h1 : q + 1 / 2 < ((b + 1 : ℤ) : ℚ) := by push_cast; linarith
  have := Int.floor_lt.mpr h1
  omega

/-! ### C10: resizeImage is bounded, identity under the cap, idempotent -/

/-- C10: for positive dimensions, `resizeImage` returns dimensions each at
most 500; inputs already within 500 × 500 are returned unchanged; applying
`resizeImage` to its own output returns that output. -/
theorem resizeImage_bounded_idempotent (w h : ℤ) (hw : 0 < w) (hh : 0 < h) :
    (resizeImage w h).1 ≤ 500 ∧ (resizeImage w h).2 ≤ 500 ∧
    (w ≤ 500 → h ≤ 500 → resizeImage w h = (w, h)) ∧
    resizeImage (resizeImage w h).1 (resizeImage w h).2 = resizeImage w h := by
  have hq : (0 : ℚ) < (h : ℚ) := by exact_mod_cast hh
  have hwq : (0 : ℚ) < (w : ℚ) := by exact_mod_cast hw
  by_cases hb : w ≤ 500 ∧ h ≤ 500
  · have heq : resizeImage w h = (w, h) := by simp [resizeImage, hb]
    refine ⟨by rw [heq]; exact hb.1, by rw [heq]; exact hb.2, fun _ _ => heq, ?_⟩
    rw [heq]
    simp [resizeImage, hb]
  · by_cases hr : (1 : ℚ) < (w : ℚ) / (h : ℚ)
    · have heq : resizeImage w h = (500, jsRound (500 / ((w : ℚ) / (h : ℚ)))) := by
        simp [resizeImage, hb, hr]
      have harg : 500 / ((w : ℚ) / (h : ℚ)) ≤ 500 :=
        div_le_self (by norm_num) (le_of_lt hr)
      have hle : jsRound (500 / ((w : ℚ) / (h : ℚ))) ≤ 500 :=
        jsRound_le_of_le (by exact_mod_cast harg)
      refine ⟨by rw [heq], by rw [heq]; exact hle, fun h1 h2 => absurd ⟨h1, h2⟩ hb, ?_⟩
      rw [heq]
      have : resizeImage 500 (jsRound (500 / ((w : ℚ) / (h : ℚ)))) =
          (500, jsRound (500 / ((w : ℚ) / (h : ℚ)))) := by
        simp [resizeImage, hle]
      simpa using this
    · have heq : resizeImage w h = (jsRound (500 * ((w : ℚ) / (h : ℚ))), 500) := by
        simp [resizeImage, hb, hr]
      have hratio : (w : ℚ) / (h : ℚ) ≤ 1 := le_of_not_lt hr
      have harg : 500 * ((w : ℚ) / (h : ℚ)) ≤ 500 := by nlinarith
      have hle : jsRound (500 * ((w : ℚ) / (h : ℚ))) ≤ 500 :=
        jsRound_le_of_le (by exact_mod_cast harg)
      refine ⟨by rw [heq]; exact hle, by rw [heq], fun h1 h2 => absurd ⟨h1, h2⟩ hb, ?_⟩
      rw [heq]
      have : resizeImage (jsRound (500 * ((w : ℚ) / (h : ℚ)))) 500 =
          (jsRound (500 * ((w : ℚ) / (h : ℚ))), 500) := by
        simp [resizeImage, hle]
      simpa using this

/-- Witness for `resizeImage_bounded_idempotent` at 800 × 600. -/
theorem resizeImage_bounded_idempotent_witness :
    (0 : ℤ) < 800 ∧ (0 : ℤ) < 600 ∧
      ((resizeImage 800 600).1 ≤ 500 ∧ (resizeImage 800 600).2 ≤ 500 ∧
        ((800 : ℤ) ≤ 500 → (600 : ℤ) ≤ 500 → resizeImage 800 600 = (800, 600)) ∧
        resizeImage (resizeImage 800 600).1 (resizeImage 800 600).2 =
          resizeImage 800 600) :=
  ⟨by norm_num, by norm_num,
    resizeImage_bounded_idempotent 800 600 (by norm_num) (by norm_num)⟩

/-! ### C2: acquire at capacity does not return null -/

/-- C2 counterexample: on a pool of `MAX_WORKERS` busy workers,
`getAvailableWorker` does not return `null`; it returns the first pool
worker. -/
theorem getAvailableWorker_at_capacity_cex :
    getAvailableWorker [⟨true, []⟩, ⟨true, []⟩, ⟨true, []⟩] ≠ none ∧
    getAvailableWorker [⟨true, []⟩, ⟨true, []⟩, ⟨true, []⟩] =
      some ([⟨true, []⟩, ⟨true, []⟩, ⟨true, []⟩], 0) := by decide

/-- C2 amended: with no idle worker and the pool at capacity, the inner
`getAvailableWorker` returns the first (busy) pool worker instead of
`null`; the dead module-level variant instead creates a new worker beyond
capacity. -/
theorem getAvailableWorker_at_capacity (pool : List WorkerSt)
    (hbusy : ∀ w ∈ pool, w.busy = true) (hlen : pool.length = MAX_WORKERS) :
    getAvailableWorker pool = some (pool, 0) ∧
    (getAvailableWorkerModule pool).1.length = MAX_WORKERS + 1 := by
  have hnone : findIdleIdx pool = none := (findIdleIdx_eq_none pool).mpr hbusy
  constructor
  · unfold getAvailableWorker
    rw [hnone]
    simp [hlen]
  · unfold getAvailableWorkerModule
    rw [hnone]
    simp [hlen]

/-- Witness for `getAvailableWorker_at_capacity` on a concrete all-busy
pool of three workers. -/
theorem getAvailableWorker_at_capacity_witness :
    getAvailableWorker [⟨true, [(0, Reply.completeSuccess)]⟩, ⟨true, []⟩, ⟨true, []⟩] =
      some ([⟨true, [(0, Reply.completeSuccess)]⟩, ⟨true, []⟩, ⟨true, []⟩], 0) ∧
    (getAvailableWorkerModule
        [⟨true, [(0, Reply.completeSuccess)]⟩, ⟨true, []⟩, ⟨true, []⟩]).1.length =
      MAX_WORKERS + 1 :=
  getAvailableWorker_at_capacity _ (by decide) (by decide)

/-! ### C1: at-most-one in-flight job per worker -/

/-- C1 counterexample: submitting a second batch while the first is still
in flight is a reachable schedule in which worker 0 is sent a second job
while its `busy` flag is true (`doubleSends = 1`) and then holds two
in-flight jobs at once. -/
theorem double_send_cex :
    (run dInit
        [Event.submit [Reply.completeSuccess, Reply.completeSuccess,
            Reply.completeSuccess, Reply.completeSuccess],
          Event.submit [Reply.completeSuccess]]).doubleSends = 1 ∧
    (run dInit
        [Event.submit [Reply.completeSuccess, Reply.completeSuccess,
            Reply.completeSuccess, Reply.completeSuccess],
          Event.submit [Reply.completeSuccess]]).pool.get? 0 =
      some ⟨true, [(0, Reply.completeSuccess), (3, Reply.completeSuccess)]⟩ := by
  decide

/-- C1 amended: a dispatch never targets a busy worker as long as, when it
runs, some worker is idle or the pool is below capacity; only the
at-capacity all-busy fallback of `getAvailableWorker` (which returns
worker 0) sends a job to a busy worker. -/
theorem processNextFile_no_double_send (s : DState)
    (h : (∃ w ∈ s.pool, w.busy = false) ∨ s.pool.length < MAX_WORKERS) :
    (processNextFile s).doubleSends = s.doubleSends := by
  cases hp : s.pending with
  | nil => simp [processNextFile, hp]
  | cons f rest =>
    unfold processNextFile
    rw [hp]
    cases hf : findIdleIdx s.pool with
    | some i =>
      obtain ⟨w, hw, hwb⟩ := findIdleIdx_spec s.pool i hf
      have hw2 : s.pool[i]? = some w := by
        rw [← List.get?_eq_getElem?]
        exact hw
      simp [getAvailableWorker, hf, hw, hw2, hwb]
    | none =>
      have hall := (findIdleIdx_eq_none s.pool).mp hf
      have hlt : s.pool.length < MAX_WORKERS := by
        rcases h with ⟨w, hwmem, hwb⟩ | h
        · rw [hall w hwmem] at hwb
          cases hwb
        · exact h
      have hget : s.pool.get? s.pool.length = none := by
        rw [List.get?_eq_none]
      simp [getAvailableWorker, hf, hlt, hget]

/-- Witness for `processNextFile_no_double_send` on a one-idle-worker
state. -/
theorem processNextFile_no_double_send_witness :
    (∃ w ∈ (⟨[⟨false, []⟩, ⟨true, []⟩, ⟨true, []⟩], [Reply.completeSuccess],
        [], 0, 1, true, 0, [], 0⟩ : DState).pool, w.busy = false) ∧
    (processNextFile ⟨[⟨false, []⟩, ⟨true, []⟩, ⟨true, []⟩],
        [Reply.completeSuccess], [], 0, 1, true, 0, [], 0⟩).doubleSends =
      (⟨[⟨false, []⟩, ⟨true, []⟩, ⟨true, []⟩], [Reply.completeSuccess],
        [], 0, 1, true, 0, [], 0⟩ : DState).doubleSends :=
  ⟨by decide, processNextFile_no_double_send _ (Or.inl (by decide))⟩

/-! ### C6: the outbound job message and the worker dispatch tag -/

/-- C6 counterexample: the message `processNextFile` posts carries the tag
`process_psd`, not `process`. -/
theorem process_tag_cex :
    (processMessage [] "a.psd" 10 0).type = "process_psd" ∧
    (processMessage [] "a.psd" 10 0).type ≠ "process" := by decide

/-- C6 amended: every dispatched job is a message of shape
`{ type: "process_psd", data: { fileBuffer, fileName, fileSize, id } }`,
and the worker message handler dispatches work on that tag: it answers a
`process_psd` message and ignores any tag other than `process_psd` and
`cleanup`. -/
theorem process_message_shape (buf : List Nat) (nm : String) (sz id : Nat)
    (pOk hT : Bool) :
    (processMessage buf nm sz id).type = "process_psd" ∧
    (processMessage buf nm sz id).data = some ⟨buf, nm, sz, id⟩ ∧
    workerOnMessage pOk hT (processMessage buf nm sz id) ≠ [] ∧
    (∀ m : MainToWorkerMsg, m.type ≠ "process_psd" → m.type ≠ "cleanup" →
      workerOnMessage pOk hT m = []) := by
  refine ⟨rfl, rfl, ?_, ?_⟩
  · cases hT <;> simp [workerOnMessage, processMessage, processPsdFile]
  · intro m h1 h2
    unfold workerOnMessage
    rw [if_neg h1, if_neg h2]

/-- Witness for `process_message_shape`, with the unknown-tag clause
instantiated at a `PING` message. -/
theorem process_message_shape_witness :
    ((processMessage [7] "x.psd" 1 5).type = "process_psd" ∧
      (processMessage [7] "x.psd" 1 5).data = some ⟨[7], "x.psd", 1, 5⟩ ∧
      workerOnMessage true false (processMessage [7] "x.psd" 1 5) ≠ [] ∧
      (∀ m : MainToWorkerMsg, m.type ≠ "process_psd" → m.type ≠ "cleanup" →
        workerOnMessage true false m = [])) ∧
    workerOnMessage true false ⟨"PING", none⟩ = [] :=
  ⟨process_message_shape [7] "x.psd" 1 5 true false,
    (process_message_shape [7] "x.psd" 1 5 true false).2.2.2 ⟨"PING", none⟩
      (by decide) (by decide)⟩

/-! ### C7: how the unit reports failures and what the page then does -/

/-- C7 counterexample: a job whose processing fails inside the unit
(`processPsdFile` catches and returns `success: false`) is reported with
tag `process_complete`, not `process_error`. -/
theorem failure_reply_tag_cex :
    workerOnMessage false false (processMessage [] "f.psd" 1 7) =
      [WorkerMsg.processComplete 7 false "f.psd"
        (some "Could not read preview – was the file saved with \"Maximise Compatibility\"?")] ∧
    (WorkerMsg.processComplete 7 false "f.psd"
        (some "Could not read preview – was the file saved with \"Maximise Compatibility\"?")).tag
      ≠ "process_error" := by decide

/-- C7 amended: a processing failure inside the unit is reported as
`process_complete` with `success: false` and an error message, and on such
a reply the page records a failure thumbnail and releases the worker; the
`process_error` reply is sent only when the worker message handler itself
throws, and on it the page records the failure but leaves the worker
`busy`. -/
theorem failure_reporting :
    (∀ (buf : List Nat) (nm : String) (sz id : Nat),
      workerOnMessage false false (processMessage buf nm sz id) =
        [WorkerMsg.processComplete id false nm
          (some "Could not read preview – was the file saved with \"Maximise Compatibility\"?")]) ∧
    (∀ (buf : List Nat) (nm : String) (sz id : Nat) (pOk : Bool),
      workerOnMessage pOk true (processMessage buf nm sz id) =
        [WorkerMsg.processError id nm "Unknown error processing PSD file"]) ∧
    (∀ (s : DState) (i id : Nat) (w : WorkerSt),
      s.pool.get? i = some w → w.inFlight = [(id, Reply.completeFailure)] →
      s.pending = [] →
      (deliver s i).thumbnails = s.thumbnails ++ [(id, true)] ∧
      (deliver s i).pool.get? i = some ⟨false, []⟩ ∧
      (deliver s i).processedFiles = s.processedFiles + 1) ∧
    (∀ (s : DState) (i id : Nat) (w : WorkerSt),
      s.pool.get? i = some w → w.inFlight = [(id, Reply.error)] →
      (deliver s i).thumbnails = s.thumbnails ++ [(id, true)] ∧
      (deliver s i).pool.get? i = some ⟨w.busy, []⟩ ∧
      (deliver s i).processedFiles = s.processedFiles + 1) := by
  refine ⟨?_, ?_, ?_, ?_⟩
  · intro buf nm sz id
    simp [workerOnMessage, processMessage, processPsdFile]
  · intro buf nm sz id pOk
    simp [workerOnMessage, processMessage]
  · intro s i id w hw hq hpend
    have hdel : deliver s i =
        processNextFile
          { (completionCheck
              { s with
                pool := modifyAt (fun v => { v with inFlight := [] }) s.pool i
                thumbnails := s.thumbnails ++ [(id, true)]
                processedFiles := s.processedFiles + 1 }) with
            pool := markWorkerAvailable
              (completionCheck
                { s with
                  pool := modifyAt (fun v => { v with inFlight := [] }) s.pool i
                  thumbnails := s.thumbnails ++ [(id, true)]
                  processedFiles := s.processedFiles + 1 }).pool i } := by
      unfold deliver
      rw [hw]
      simp only [Option.map_some']
      rw [hq]
    have hpend2 :
        (completionCheck
            { s with
              pool := modifyAt (fun v => { v with inFlight := [] }) s.pool i
              thumbnails := s.thumbnails ++ [(id, true)]
              processedFiles := s.processedFiles + 1 }).pending = [] := by
      rw [completionCheck_pending]
      exact hpend
    rw [hdel]
    unfold processNextFile
    rw [hpend2]
    refine ⟨?_, ?_, ?_⟩
    · rw [completionCheck_thumbnails]
    · show (markWorkerAvailable _ i).get? i = _
      rw [markWorkerAvailable, get?_modifyAt_self, completionCheck_pool]
      show ((modifyAt (fun v => { v with inFlight := [] }) s.pool i).get? i).map _ = _
      rw [get?_modifyAt_self, hw]
      rfl
    · rw [completionCheck_processedFiles]
  · intro s i id w hw hq
    have hdel : deliver s i =
        completionCheck
          { s with
            pool := modifyAt (fun v => { v with inFlight := [] }) s.pool i
            thumbnails := s.thumbnails ++ [(id, true)]
            processedFiles := s.processedFiles + 1 } := by
      unfold deliver
      rw [hw]
      simp only [Option.map_some']
      rw [hq]
    rw [hdel]
    refine ⟨?_, ?_, ?_⟩
    · rw [completionCheck_thumbnails]
    · rw [completionCheck_pool]
      show ((modifyAt (fun v => { v with inFlight := [] }) s.pool i).get? i) = _
      rw [get?_modifyAt_self, hw]
      rfl
    · rw [completionCheck_processedFiles]

/-- Witness for `failure_reporting` on a one-worker-in-flight concrete
state for each delivery clause. -/
theorem failure_reporting_witness :
    workerOnMessage false false (processMessage [] "w.psd" 2 9) =
      [WorkerMsg.processComplete 9 false "w.psd"
        (some "Could not read preview – was the file saved with \"Maximise Compatibility\"?")] ∧
    workerOnMessage true true (processMessage [] "w.psd" 2 9) =
      [WorkerMsg.processError 9 "w.psd" "Unknown error processing PSD file"] ∧
    ((deliver ⟨[⟨true, [(4, Reply.completeFailure)]⟩], [], [], 0, 1, true, 5, [], 0⟩ 0).thumbnails =
        [(4, true)] ∧
      (deliver ⟨[⟨true, [(4, Reply.completeFailure)]⟩], [], [], 0, 1, true, 5, [], 0⟩ 0).pool.get? 0 =
        some ⟨false, []⟩) ∧
    ((deliver ⟨[⟨true, [(4, Reply.error)]⟩], [], [], 0, 1, true, 5, [], 0⟩ 0).thumbnails =
        [(4, true)] ∧
      (deliver ⟨[⟨true, [(4, Reply.error)]⟩], [], [], 0, 1, true, 5, [], 0⟩ 0).pool.get? 0 =
        some ⟨true, []⟩) := by
  refine ⟨failure_reporting.1 [] "w.psd" 2 9, failure_reporting.2.1 [] "w.psd" 2 9 true, ?_, ?_⟩
  · have h := failure_reporting.2.2.1
      ⟨[⟨true, [(4, Reply.completeFailure)]⟩], [], [], 0, 1, true, 5, [], 0⟩ 0 4
      ⟨true, [(4, Reply.completeFailure)]⟩ rfl rfl rfl
    exact ⟨h.1, h.2.1⟩
  · have h := failure_reporting.2.2.2
      ⟨[⟨true, [(4, Reply.error)]⟩], [], [], 0, 1, true, 5, [], 0⟩ 0 4
      ⟨true, [(4, Reply.error)]⟩ rfl rfl
    exact ⟨h.1, h.2.1⟩

/-! ### C9: cleanupWorkerPool -/

/-- C9: `cleanupWorkerPool` empties the pool, posts the `cleanup` message
to every worker at a position strictly before that worker's forced
termination (the 100 ms grace delay), is idempotent on the resulting empty
pool, and the worker acknowledges a `cleanup` message with
`cleanup_complete`. -/
theorem cleanup_protocol (pool : List WorkerSt) :
    (cleanupWorkerPool pool).1 = [] ∧
    (∀ i, i < pool.length → ∃ k₁ k₂ : Nat, k₁ < k₂ ∧
      (cleanupWorkerPool pool).2.get? k₁ = some (CleanupAction.postCleanup i) ∧
      (cleanupWorkerPool pool).2.get? k₂ = some (CleanupAction.terminate i)) ∧
    cleanupWorkerPool (cleanupWorkerPool pool).1 = ([], []) ∧
    (∀ pOk hT : Bool, workerOnMessage pOk hT cleanupMessage =
      [WorkerMsg.cleanupComplete]) := by
  refine ⟨rfl, ?_, rfl, ?_⟩
  · intro i hi
    refine ⟨i, pool.length + i, by omega, ?_, ?_⟩
    · rw [cleanupWorkerPool]
      rw [List.get?_append (by simpa using hi)]
      simp [hi]
    · rw [cleanupWorkerPool]
      rw [List.get?_append_right (by simp)]
      simp [hi]
  · intro pOk hT
    rfl

/-- Witness for `cleanup_protocol` on a concrete two-worker pool. -/
theorem cleanup_protocol_witness :
    (cleanupWorkerPool [⟨true, []⟩, freshWorker]).1 = [] ∧
    (∃ k₁ k₂ : Nat, k₁ < k₂ ∧
      (cleanupWorkerPool [⟨true, []⟩, freshWorker]).2.get? k₁ =
        some (CleanupAction.postCleanup 1) ∧
      (cleanupWorkerPool [⟨true, []⟩, freshWorker]).2.get? k₂ =
        some (CleanupAction.terminate 1)) ∧
    cleanupWorkerPool (cleanupWorkerPool [⟨true, []⟩, freshWorker]).1 = ([], []) ∧
    workerOnMessage true false cleanupMessage = [WorkerMsg.cleanupComplete] :=
  ⟨(cleanup_protocol _).1,
    (cleanup_protocol [⟨true, []⟩, freshWorker]).2.1 1 (by decide),
    (cleanup_protocol _).2.2.1,
    (cleanup_protocol [⟨true, []⟩, freshWorker]).2.2.2 true false⟩

/-! ### Derived quantities over the pool, and their update lemmas -/

/-- Ids of all in-flight messages, worker by worker. -/
def flightIds (pool : List WorkerSt) : List Nat :=
  (pool.map (fun w => w.inFlight.map Prod.fst)).join

/-- Total number of in-flight messages. -/
def flightTotal (pool : List WorkerSt) : Nat :=
  (pool.map (fun w => w.inFlight.length)).sum

/-- Number of in-flight messages whose reply is `process_error`. -/
def flightErrCount (pool : List WorkerSt) : Nat :=
  (pool.map (fun w => w.inFlight.countP (fun p => p.2 == Reply.error))).sum

/-- Workers that are marked busy but have no outstanding message: exactly
the workers whose job answered `process_error`, permanently lost to the
pool. -/
def stuckCount (pool : List WorkerSt) : Nat :=
  pool.countP (fun w => w.busy && w.inFlight.isEmpty)

theorem sumMap_modifyAt (g : WorkerSt → Nat) (f : WorkerSt → WorkerSt) :
    ∀ (l : List WorkerSt) (i : Nat) (w : WorkerSt), l.get? i = some w →
      ((modifyAt f l i).map g).sum + g w = (l.map g).sum + g (f w) := by
  intro l
  induction l with
  | nil => intro i w h; simp at h
  | cons x xs ih =>
    intro i w h
    cases i with
    | zero =>
      simp only [List.get?] at h
      cases h
      simp [modifyAt]
      omega
    | succ j =>
      simp only [List.get?] at h
      have := ih j w h
      simp only [modifyAt, List.map_cons, List.sum_cons]
      omega

theorem countP_modifyAt (p : WorkerSt → Bool) (f : WorkerSt → WorkerSt) :
    ∀ (l : List WorkerSt) (i : Nat) (w : WorkerSt), l.get? i = some w →
      (modifyAt f l i).countP p + (if p w then 1 else 0) =
        l.countP p + (if p (f w) then 1 else 0) := by
  intro l
  induction l with
  | nil => intro i w h; simp at h
  | cons x xs ih =>
    intro i w h
    cases i with
    | zero =>
      simp only [List.get?] at h
      cases h
      simp only [modifyAt, List.countP_cons]
      omega
    | succ j =>
      simp only [List.get?] at h
      have := ih j w h
      simp only [modifyAt, List.countP_cons]
      omega

theorem count_flightIds (pool : List WorkerSt) (id : Nat) :
    (flightIds pool).count id =
      (pool.map (fun w => (w.inFlight.map Prod.fst).count id)).sum := by
  induction pool with
  | nil => rfl
  | cons w ws ih =>
    have h1 : flightIds (w :: ws) = (w.inFlight.map Prod.fst) ++ flightIds ws := rfl
    rw [h1, List.count_append, ih, List.map_cons, List.sum_cons]

theorem flightTotal_modifyAt (f : WorkerSt → WorkerSt) (l : List WorkerSt)
    (i : Nat) (w : WorkerSt) (h : l.get? i = some w) :
    flightTotal (modifyAt f l i) + w.inFlight.length =
      flightTotal l + (f w).inFlight.length :=
  sumMap_modifyAt _ f l i w h

theorem flightErrCount_modifyAt (f : WorkerSt → WorkerSt) (l : List WorkerSt)
    (i : Nat) (w : WorkerSt) (h : l.get? i = some w) :
    flightErrCount (modifyAt f l i) + w.inFlight.countP (fun p => p.2 == Reply.error) =
      flightErrCount l + (f w).inFlight.countP (fun p => p.2 == Reply.error) :=
  sumMap_modifyAt _ f l i w h

theorem count_flightIds_modifyAt (f : WorkerSt → WorkerSt) (l : List WorkerSt)
    (i : Nat) (w : WorkerSt) (h : l.get? i = some w) (id : Nat) :
    (flightIds (modifyAt f l i)).count id + (w.inFlight.map Prod.fst).count id =
      (flightIds l).count id + ((f w).inFlight.map Prod.fst).count id := by
  rw [count_flightIds, count_flightIds]
  exact sumMap_modifyAt _ f l i w h

theorem stuckCount_modifyAt (f : WorkerSt → WorkerSt) (l : List WorkerSt)
    (i : Nat) (w : WorkerSt) (h : l.get? i = some w) :
    stuckCount (modifyAt f l i) + (if w.busy && w.inFlight.isEmpty then 1 else 0) =
      stuckCount l + (if (f w).busy && (f w).inFlight.isEmpty then 1 else 0) :=
  countP_modifyAt _ f l i w h

theorem findIdleIdx_unique (l : List WorkerSt) :
    ∀ i : Nat, i < l.length →
      (∀ j w, l.get? j = some w → (w.busy = false ↔ j = i)) →
      findIdleIdx l = some i := by
  induction l with
  | nil => intro i hi _; simp at hi
  | cons x xs ih =>
    intro i hi h
    cases i with
    | zero =>
      have hx : x.busy = false := (h 0 x rfl).mpr rfl
      simp [findIdleIdx, hx]
    | succ i' =>
      have hx : x.busy = true := by
        rcases hb : x.busy with _ | _
        · exact absurd ((h 0 x rfl).mp hb) (by omega)
        · rfl
      have hx2 : ¬x.busy = false := by simp [hx]
      have := ih i' (by simpa using hi) (fun j w hj => by
        have := h (j + 1) w (by simpa using hj)
        simpa using this)
      simp [findIdleIdx, hx, this]

/-! ### The single-batch dispatcher invariant -/

/-- Index characterization of membership in a concrete three-worker pool. -/
theorem get3 {w0 w1 w2 w : WorkerSt} {i : Nat}
    (h : ([w0, w1, w2] : List WorkerSt).get? i = some w) :
    (i = 0 ∧ w = w0) ∨ (i = 1 ∧ w = w1) ∨ (i = 2 ∧ w = w2) := by
  rcases i with _ | _ | _ | i <;> simp_all

/-- Invariant of the dispatcher over a single batch `jobs` submitted to the
fresh dispatcher state, preserved by every reply delivery. -/
structure DInv (jobs : List Reply) (s : DState) : Prop where
  poolLen : s.pool.length = MAX_WORKERS
  totalEq : s.totalFiles = jobs.length
  nextLe : s.nextId ≤ jobs.length
  pendEq : s.pending = jobs.drop s.nextId
  logEq : s.dispatchLog = List.range s.nextId
  conserve : s.processedFiles + s.pending.length + flightTotal s.pool = jobs.length
  qlen : ∀ i w, s.pool.get? i = some w → w.inFlight.length ≤ 1
  loadedBusy : ∀ i w, s.pool.get? i = some w → w.inFlight ≠ [] → w.busy = true
  allBusy : s.pending ≠ [] → ∀ i w, s.pool.get? i = some w → w.busy = true
  exactOnce : ∀ id, (s.thumbnails.map Prod.fst).count id + (flightIds s.pool).count id
      = if id < s.nextId then 1 else 0
  flightJob : ∀ i w, s.pool.get? i = some w → ∀ p ∈ w.inFlight, jobs.get? p.1 = some p.2
  thumbOk : ∀ t ∈ s.thumbnails, ∃ r, jobs.get? t.1 = some r ∧ t.2 = r.isFailure
  stuckEq : stuckCount s.pool =
      s.thumbnails.countP (fun t => jobs.get? t.1 == some Reply.error)
  stuckBound : stuckCount s.pool + flightErrCount s.pool ≤
      (jobs.take s.nextId).count Reply.error

theorem processFiles_one (a : Reply) :
    processFiles dInit [a] =
      ⟨[⟨true, [(0, a)]⟩, freshWorker, freshWorker], [], [], 0, 1, true, 1, [0], 0⟩ := by
  simp [processFiles, iterateDispatch, processNextFile, getAvailableWorker,
    findIdleIdx, modifyAt, initPoolIfEmpty, dInit, freshWorker, MAX_WORKERS]

theorem processFiles_two (a b : Reply) :
    processFiles dInit [a, b] =
      ⟨[⟨true, [(0, a)]⟩, ⟨true, [(1, b)]⟩, freshWorker], [], [], 0, 2, true, 2,
        [0, 1], 0⟩ := by
  simp [processFiles, iterateDispatch, processNextFile, getAvailableWorker,
    findIdleIdx, modifyAt, initPoolIfEmpty, dInit, freshWorker, MAX_WORKERS]

theorem processFiles_three (a b c : Reply) (rest : List Reply) :
    processFiles dInit (a :: b :: c :: rest) =
      ⟨[⟨true, [(0, a)]⟩, ⟨true, [(1, b)]⟩, ⟨true, [(2, c)]⟩], rest, [], 0,
        (a :: b :: c :: rest).length, true, 3, [0, 1, 2], 0⟩ := by
  unfold processFiles
  have h3 : min MAX_WORKERS (a :: b :: c :: rest).length = 3 := by
    simp only [List.length_cons]
    unfold MAX_WORKERS
    omega
  rw [h3]
  simp [iterateDispatch, processNextFile, getAvailableWorker, findIdleIdx,
    modifyAt, initPoolIfEmpty, dInit, freshWorker, MAX_WORKERS]

theorem dInv_init_three (a b c : Reply) (rest : List Reply) :
    DInv (a :: b :: c :: rest) (processFiles dInit (a :: b :: c :: rest)) := by
  rw [processFiles_three]
  refine ⟨rfl, rfl, by simp, rfl, rfl, ?_, ?_, ?_, ?_, ?_, ?_, ?_, ?_, ?_⟩
  · simp [flightTotal]
  · intro i w h
    rcases get3 h with ⟨_, rfl⟩ | ⟨_, rfl⟩ | ⟨_, rfl⟩ <;> simp
  · intro i w h
    rcases get3 h with ⟨_, rfl⟩ | ⟨_, rfl⟩ | ⟨_, rfl⟩ <;> simp
  · intro _ i w h
    rcases get3 h with ⟨_, rfl⟩ | ⟨_, rfl⟩ | ⟨_, rfl⟩ <;> simp
  · intro id
    have hf : flightIds [⟨true, [(0, a)]⟩, ⟨true, [(1, b)]⟩, ⟨true, [(2, c)]⟩] =
        [0, 1, 2] := rfl
    rw [hf]
    rcases id with _ | _ | _ | id
    · simp [List.count_cons]
    · simp [List.count_cons]
    · simp [List.count_cons]
    · have hnm : (id + 3) ∉ ([0, 1, 2] : List Nat) := by
        intro hmem
        simp at hmem
      rw [List.count_eq_zero_of_not_mem hnm]
      show 0 = if id + 1 + 1 + 1 < 3 then 1 else 0
      rw [if_neg (by omega)]
  · intro i w h
    rcases get3 h with ⟨_, rfl⟩ | ⟨_, rfl⟩ | ⟨_, rfl⟩ <;>
      · intro p hp
        simp at hp
        subst hp
        rfl
  · intro t ht
    simp at ht
  · simp [stuckCount]
  · have hs : stuckCount [⟨true, [(0, a)]⟩, ⟨true, [(1, b)]⟩, ⟨true, [(2, c)]⟩] = 0 := by
      simp [stuckCount]
    rw [hs]
    simp only [flightErrCount, List.map_cons, List.map_nil, List.sum_cons,
      List.sum_nil, List.countP_cons, List.countP_nil, List.take_cons]
    simp [List.count_cons, List.take]
    omega

theorem dInv_init_one (a : Reply) : DInv [a] (processFiles dInit [a]) := by
  rw [processFiles_one]
  refine ⟨rfl, rfl, by simp, rfl, rfl, ?_, ?_, ?_, ?_, ?_, ?_, ?_, ?_, ?_⟩
  · simp [flightTotal, freshWorker]
  · intro i w h
    rcases get3 h with ⟨_, rfl⟩ | ⟨_, rfl⟩ | ⟨_, rfl⟩ <;> simp [freshWorker]
  · intro i w h
    rcases get3 h with ⟨_, rfl⟩ | ⟨_, rfl⟩ | ⟨_, rfl⟩ <;> simp [freshWorker]
  · intro hne
    simp at hne
  · intro id
    have hf : flightIds [⟨true, [(0, a)]⟩, freshWorker, freshWorker] = [0] := rfl
    rw [hf]
    rcases id with _ | id
    · simp [List.count_cons]
    · have hnm : (id + 1) ∉ ([0] : List Nat) := by
        intro hmem
        simp at hmem
      rw [List.count_eq_zero_of_not_mem hnm]
      show 0 = if id + 1 < 1 then 1 else 0
      rw [if_neg (by omega)]
  · intro i w h
    rcases get3 h with ⟨_, rfl⟩ | ⟨_, rfl⟩ | ⟨_, rfl⟩ <;>
      · intro p hp
        simp [freshWorker] at hp
        try (subst hp; rfl)
  · intro t ht
    simp at ht
  · simp [stuckCount, freshWorker]
  · have hs : stuckCount [⟨true, [(0, a)]⟩, freshWorker, freshWorker] = 0 := by
      simp [stuckCount, freshWorker]
    rw [hs]
    simp only [flightErrCount, freshWorker, List.map_cons, List.map_nil,
      List.sum_cons, List.sum_nil, List.countP_cons, List.countP_nil]
    simp [List.count_cons, List.take]

theorem dInv_init_two (a b : Reply) : DInv [a, b] (processFiles dInit [a, b]) := by
  rw [processFiles_two]
  refine ⟨rfl, rfl, by simp, rfl, rfl, ?_, ?_, ?_, ?_, ?_, ?_, ?_, ?_, ?_⟩
  · simp [flightTotal, freshWorker]
  · intro i w h
    rcases get3 h with ⟨_, rfl⟩ | ⟨_, rfl⟩ | ⟨_, rfl⟩ <;> simp [freshWorker]
  · intro i w h
    rcases get3 h with ⟨_, rfl⟩ | ⟨_, rfl⟩ | ⟨_, rfl⟩ <;> simp [freshWorker]
  · intro hne
    simp at hne
  · intro id
    have hf : flightIds [⟨true, [(0, a)]⟩, ⟨true, [(1, b)]⟩, freshWorker] = [0, 1] := rfl
    rw [hf]
    rcases id with _ | _ | id
    · simp [List.count_cons]
    · simp [List.count_cons]
    · have hnm : (id + 2) ∉ ([0, 1] : List Nat) := by
        intro hmem
        simp at hmem
      rw [List.count_eq_zero_of_not_mem hnm]
      show 0 = if id + 1 + 1 < 2 then 1 else 0
      rw [if_neg (by omega)]
  · intro i w h
    rcases get3 h with ⟨_, rfl⟩ | ⟨_, rfl⟩ | ⟨_, rfl⟩ <;>
      · intro p hp
        simp [freshWorker] at hp
        try (subst hp; rfl)
  · intro t ht
    simp at ht
  · simp [stuckCount, freshWorker]
  · have hs : stuckCount [⟨true, [(0, a)]⟩, ⟨true, [(1, b)]⟩, freshWorker] = 0 := by
      simp [stuckCount, freshWorker]
    rw [hs]
    simp only [flightErrCount, freshWorker, List.map_cons, List.map_nil,
      List.sum_cons, List.sum_nil, List.countP_cons, List.countP_nil]
    simp [List.count_cons, List.take]
    omega

theorem dInv_processFiles (jobs : List Reply) (h : jobs ≠ []) :
    DInv jobs (processFiles dInit jobs) := by
  match jobs with
  | [] => exact absurd rfl h
  | [a] => exact dInv_init_one a
  | [a, b] => exact dInv_init_two a b
  | a :: b :: c :: rest => exact dInv_init_three a b c rest

theorem modifyAt_modifyAt (f g : WorkerSt → WorkerSt) :
    ∀ (l : List WorkerSt) (i : Nat),
      modifyAt g (modifyAt f l i) i = modifyAt (fun x => g (f x)) l i := by
  intro l
  induction l with
  | nil => intro i; rfl
  | cons x xs ih =>
    intro i
    cases i with
    | zero => rfl
    | succ j => simp [modifyAt, ih]

theorem lt_length_of_get? {l : List WorkerSt} {i : Nat} {w : WorkerSt}
    (h : l.get? i = some w) : i < l.length := by
  by_contra hle
  rw [List.get?_eq_none.mpr (le_of_not_lt hle)] at h
  cases h

theorem mem_flightIds {l : List WorkerSt} :
    ∀ {i : Nat} {w : WorkerSt}, l.get? i = some w →
      ∀ {p : Nat × Reply}, p ∈ w.inFlight → p.1 ∈ flightIds l := by
  induction l with
  | nil => intro i w h; simp at h
  | cons x xs ih =>
    intro i w h p hp
    have hfi : flightIds (x :: xs) = (x.inFlight.map Prod.fst) ++ flightIds xs := rfl
    rw [hfi]
    cases i with
    | zero =>
      simp only [List.get?, Option.some.injEq] at h
      subst h
      exact List.mem_append_left _ (List.mem_map_of_mem _ hp)
    | succ j =>
      simp only [List.get?] at h
      exact List.mem_append_right _ (ih h hp)

/-- `completionCheck` either clears `isProcessing` or does nothing. -/
theorem completionCheck_eq_or (s : DState) :
    completionCheck s = { s with isProcessing := false } ∨ completionCheck s = s := by
  unfold completionCheck
  split
  · exact Or.inl rfl
  · exact Or.inr rfl

/-- `DInv` does not mention `isProcessing`. -/
theorem dInv_isProcessing {jobs : List Reply} {s : DState} (b : Bool)
    (hv : DInv jobs s) : DInv jobs { s with isProcessing := b } :=
  ⟨hv.poolLen, hv.totalEq, hv.nextLe, hv.pendEq, hv.logEq, hv.conserve, hv.qlen,
    hv.loadedBusy, hv.allBusy, hv.exactOnce, hv.flightJob, hv.thumbOk,
    hv.stuckEq, hv.stuckBound⟩

theorem dInv_error_core (jobs : List Reply) (s : DState) (i id : Nat) (w : WorkerSt)
    (hv : DInv jobs s) (hw : s.pool.get? i = some w)
    (hq : w.inFlight = [(id, Reply.error)]) (b : Bool) :
    DInv jobs
      ⟨modifyAt (fun v => { v with inFlight := [] }) s.pool i,
        s.pending, s.thumbnails ++ [(id, true)], s.processedFiles + 1,
        s.totalFiles, b, s.nextId, s.dispatchLog, s.doubleSends⟩ := by
  have hmemq : ((id : Nat), Reply.error) ∈ w.inFlight := by rw [hq]; simp
  have hjid : jobs.get? id = some Reply.error := hv.flightJob i w hw _ hmemq
  have hidlt : id < s.nextId := by
    have hmem : id ∈ flightIds s.pool := mem_flightIds hw hmemq
    have hpos : 0 < (flightIds s.pool).count id := List.count_pos_iff.mpr hmem
    have hpre := hv.exactOnce id
    by_contra hge
    rw [if_neg hge] at hpre
    omega
  have hbusy : w.busy = true := hv.loadedBusy i w hw (by rw [hq]; simp)
  have hft := flightTotal_modifyAt (fun v => { v with inFlight := [] }) s.pool i w hw
  rw [hq] at hft
  simp only [List.length_cons, List.length_nil] at hft
  have hsc := stuckCount_modifyAt (fun v => { v with inFlight := [] }) s.pool i w hw
  rw [hq, hbusy] at hsc
  simp at hsc
  have hec := flightErrCount_modifyAt (fun v => { v with inFlight := [] }) s.pool i w hw
  rw [hq] at hec
  simp only [List.countP_cons, List.countP_nil, beq_self_eq_true, if_true] at hec
  refine ⟨?_, hv.totalEq, hv.nextLe, hv.pendEq, hv.logEq, ?_, ?_, ?_, ?_, ?_, ?_, ?_, ?_, ?_⟩
  · show (modifyAt _ s.pool i).length = MAX_WORKERS
    rw [modifyAt_length]
    exact hv.poolLen
  · show s.processedFiles + 1 + s.pending.length + flightTotal (modifyAt _ s.pool i) = jobs.length
    have := hv.conserve
    omega
  · intro j w' h'
    by_cases hj : j = i
    · subst hj
      rw [get?_modifyAt_self, hw] at h'
      simp only [Option.map_some', Option.some.injEq] at h'
      subst h'
      simp
    · rw [get?_modifyAt_ne _ _ _ _ hj] at h'
      exact hv.qlen j w' h'
  · intro j w' h' hne
    by_cases hj : j = i
    · subst hj
      rw [get?_modifyAt_self, hw] at h'
      simp only [Option.map_some', Option.some.injEq] at h'
      subst h'
      simp at hne
    · rw [get?_modifyAt_ne _ _ _ _ hj] at h'
      exact hv.loadedBusy j w' h' hne
  · intro hpne j w' h'
    by_cases hj : j = i
    · subst hj
      rw [get?_modifyAt_self, hw] at h'
      simp only [Option.map_some', Option.some.injEq] at h'
      subst h'
      exact hbusy
    · rw [get?_modifyAt_ne _ _ _ _ hj] at h'
      exact hv.allBusy hpne j w' h'
  · intro id'
    have hpre := hv.exactOnce id'
    have hfc := count_flightIds_modifyAt (fun v => { v with inFlight := [] }) s.pool i w hw id'
    rw [hq] at hfc
    simp only [List.map_cons, List.map_nil, List.count_nil] at hfc
    show (List.map Prod.fst (s.thumbnails ++ [(id, true)])).count id' +
      (flightIds (modifyAt _ s.pool i)).count id' = if id' < s.nextId then 1 else 0
    rw [List.map_append, List.count_append]
    by_cases hids : id' = id
    · subst hids
      simp only [List.map_cons, List.map_nil, List.count_cons, List.count_nil,
        beq_self_eq_true, if_true] at hfc ⊢
      rw [if_pos hidlt] at hpre ⊢
      omega
    · have hids2 : ¬id = id' := fun hh => hids hh.symm
      have h1 : (List.map Prod.fst [((id : Nat), true)]).count id' = 0 := by
        simp only [List.map_cons, List.map_nil, List.count_cons, List.count_nil]
        simp [hids2]
      have h2 : (List.count id' [id]) = 0 := by
        simp [List.count_cons, hids]
      rw [h2] at hfc
      rw [h1]
      omega
  · intro j w' h'
    by_cases hj : j = i
    · subst hj
      rw [get?_modifyAt_self, hw] at h'
      simp only [Option.map_some', Option.some.injEq] at h'
      subst h'
      intro p hp
      simp at hp
    · rw [get?_modifyAt_ne _ _ _ _ hj] at h'
      exact hv.flightJob j w' h'
  · intro t ht
    rcases List.mem_append.mp ht with hold | hnew
    · exact hv.thumbOk t hold
    · simp only [List.mem_singleton] at hnew
      subst hnew
      exact ⟨Reply.error, hjid, rfl⟩
  · show stuckCount (modifyAt _ s.pool i) = _
    have hse := hv.stuckEq
    rw [List.countP_append]
    have hjid2 : jobs[id]? = some Reply.error := by
      rw [← List.get?_eq_getElem?]
      exact hjid
    have h1 : List.countP (fun t => jobs.get? t.1 == some Reply.error) [((id : Nat), true)] = 1 := by
      simp [List.countP_cons, hjid2]
    rw [h1]
    omega
  · show stuckCount (modifyAt _ s.pool i) + flightErrCount (modifyAt _ s.pool i) ≤
      (jobs.take s.nextId).count Reply.error
    have := hv.stuckBound
    omega

theorem count_single (a b : Nat) : List.count a [b] = if a = b then 1 else 0 := by
  by_cases h : a = b
  · subst h
    simp
  · simp [List.count_cons, h]

theorem dInv_complete_core (jobs : List Reply) (s : DState) (i id : Nat) (w : WorkerSt)
    (r : Reply) (flag : Bool)
    (hv : DInv jobs s) (hw : s.pool.get? i = some w)
    (hq : w.inFlight = [(id, r)]) (hflag : flag = r.isFailure)
    (hr : r ≠ Reply.error) (b : Bool) :
    DInv jobs
      (processNextFile
        ⟨markWorkerAvailable (modifyAt (fun v => { v with inFlight := [] }) s.pool i) i,
          s.pending, s.thumbnails ++ [(id, flag)], s.processedFiles + 1,
          s.totalFiles, b, s.nextId, s.dispatchLog, s.doubleSends⟩) := by
  have hmemq : ((id : Nat), r) ∈ w.inFlight := by rw [hq]; simp
  have hjid : jobs.get? id = some r := hv.flightJob i w hw _ hmemq
  have hjid2 : jobs[id]? = some r := by
    rw [← List.get?_eq_getElem?]
    exact hjid
  have hidlt : id < s.nextId := by
    have hmem : id ∈ flightIds s.pool := mem_flightIds hw hmemq
    have hpos : 0 < (flightIds s.pool).count id := List.count_pos_iff.mpr hmem
    have hpre := hv.exactOnce id
    by_contra hge
    rw [if_neg hge] at hpre
    omega
  have hpool : markWorkerAvailable (modifyAt (fun v => { v with inFlight := [] }) s.pool i) i
      = modifyAt (fun _ => (⟨false, []⟩ : WorkerSt)) s.pool i := by
    unfold markWorkerAvailable
    rw [modifyAt_modifyAt]
  rw [hpool]
  have hbeqf : (some r == some Reply.error) = false := by
    cases r <;> simp_all
  have hcex : List.countP (fun t => jobs.get? t.1 == some Reply.error)
      [((id : Nat), flag)] = 0 := by
    simp [List.countP_cons, hjid2, hbeqf]
  cases hpend : s.pending with
  | nil =>
    have hself : processNextFile
        ⟨modifyAt (fun _ => (⟨false, []⟩ : WorkerSt)) s.pool i,
          [], s.thumbnails ++ [(id, flag)], s.processedFiles + 1,
          s.totalFiles, b, s.nextId, s.dispatchLog, s.doubleSends⟩ =
        ⟨modifyAt (fun _ => (⟨false, []⟩ : WorkerSt)) s.pool i,
          [], s.thumbnails ++ [(id, flag)], s.processedFiles + 1,
          s.totalFiles, b, s.nextId, s.dispatchLog, s.doubleSends⟩ := rfl
    rw [hself]
    have hft := flightTotal_modifyAt (fun _ => (⟨false, []⟩ : WorkerSt)) s.pool i w hw
    rw [hq] at hft
    simp only [List.length_cons, List.length_nil] at hft
    have hsc := stuckCount_modifyAt (fun _ => (⟨false, []⟩ : WorkerSt)) s.pool i w hw
    rw [hq] at hsc
    simp at hsc
    have hec := flightErrCount_modifyAt (fun _ => (⟨false, []⟩ : WorkerSt)) s.pool i w hw
    rw [hq] at hec
    simp only [List.countP_cons, List.countP_nil, hbeqf, if_false] at hec
    have hecr : (r == Reply.error) = false := by
      cases r <;> simp_all
    rw [hecr] at hec
    simp at hec
    refine ⟨?_, hv.totalEq, hv.nextLe, ?_, hv.logEq, ?_, ?_, ?_, ?_, ?_, ?_, ?_, ?_, ?_⟩
    · show (modifyAt _ s.pool i).length = MAX_WORKERS
      rw [modifyAt_length]
      exact hv.poolLen
    · show ([] : List Reply) = jobs.drop s.nextId
      rw [← hpend]
      exact hv.pendEq
    · show s.processedFiles + 1 + ([] : List Reply).length + flightTotal (modifyAt _ s.pool i) = jobs.length
      have hcv := hv.conserve
      rw [hpend] at hcv
      simp only [List.length_nil] at hcv ⊢
      omega
    · intro j w' h'
      by_cases hj : j = i
      · subst hj
        rw [get?_modifyAt_self, hw] at h'
        simp only [Option.map_some', Option.some.injEq] at h'
        subst h'
        simp
      · rw [get?_modifyAt_ne _ _ _ _ hj] at h'
        exact hv.qlen j w' h'
    · intro j w' h' hne
      by_cases hj : j = i
      · subst hj
        rw [get?_modifyAt_self, hw] at h'
        simp only [Option.map_some', Option.some.injEq] at h'
        subst h'
        simp at hne
      · rw [get?_modifyAt_ne _ _ _ _ hj] at h'
        exact hv.loadedBusy j w' h' hne
    · intro hpne
      exact absurd rfl hpne
    · intro id'
      have hpre := hv.exactOnce id'
      have hfc := count_flightIds_modifyAt (fun _ => (⟨false, []⟩ : WorkerSt)) s.pool i w hw id'
      rw [hq] at hfc
      simp only [List.map_cons, List.map_nil, List.count_nil] at hfc
      show (List.map Prod.fst (s.thumbnails ++ [(id, flag)])).count id' +
        (flightIds (modifyAt _ s.pool i)).count id' = if id' < s.nextId then 1 else 0
      rw [List.map_append, List.count_append]
      by_cases hids : id' = id
      · subst hids
        simp only [List.map_cons, List.map_nil, List.count_cons, List.count_nil,
          beq_self_eq_true, if_true] at hfc ⊢
        rw [if_pos hidlt] at hpre ⊢
        omega
      · have hids2 : ¬id = id' := fun hh => hids hh.symm
        have h1 : (List.map Prod.fst [((id : Nat), flag)]).count id' = 0 := by
          simp only [List.map_cons, List.map_nil, List.count_cons, List.count_nil]
          simp [hids2]
        have h2 : (List.count id' [id]) = 0 := by
          simp [List.count_cons, hids]
        rw [h2] at hfc
        rw [h1]
        omega
    · intro j w' h'
      by_cases hj : j = i
      · subst hj
        rw [get?_modifyAt_self, hw] at h'
        simp only [Option.map_some', Option.some.injEq] at h'
        subst h'
        intro p hp
        simp at hp
      · rw [get?_modifyAt_ne _ _ _ _ hj] at h'
        exact hv.flightJob j w' h'
    · intro t ht
      rcases List.mem_append.mp ht with hold | hnew
      · exact hv.thumbOk t hold
      · simp only [List.mem_singleton] at hnew
        subst hnew
        exact ⟨r, hjid, hflag⟩
    · show stuckCount (modifyAt _ s.pool i) = _
      rw [List.countP_append, hcex]
      have hse := hv.stuckEq
      omega
    · show stuckCount (modifyAt _ s.pool i) + flightErrCount (modifyAt _ s.pool i) ≤
        (jobs.take s.nextId).count Reply.error
      have := hv.stuckBound
      omega
  | cons f rest =>
    have hpne : s.pending ≠ [] := by rw [hpend]; simp
    have hallb := hv.allBusy hpne
    have hnextlt : s.nextId < jobs.length := by
      have := hv.pendEq
      rw [hpend] at this
      by_contra hge
      rw [List.drop_eq_nil_of_le (by omega)] at this
      cases this
    have hjf : jobs.get? s.nextId = some f := by
      have hdp := hv.pendEq
      rw [hpend] at hdp
      have : (jobs.drop s.nextId).get? 0 = some f := by rw [← hdp]; rfl
      rw [List.get?_drop] at this
      simpa using this
    have hdrop1 : jobs.drop (s.nextId + 1) = rest := by
      have hdp := hv.pendEq
      rw [hpend] at hdp
      have : (jobs.drop s.nextId).tail = jobs.drop (s.nextId + 1) := by
        rw [List.tail_drop]
      rw [← hdp] at this
      simpa using this.symm
    have hilt : i < s.pool.length := lt_length_of_get? hw
    have hfind : findIdleIdx (modifyAt (fun _ => (⟨false, []⟩ : WorkerSt)) s.pool i)
        = some i := by
      apply findIdleIdx_unique
      · rw [modifyAt_length]
        exact hilt
      · intro j w' h'
        by_cases hj : j = i
        · subst hj
          rw [get?_modifyAt_self, hw] at h'
          simp only [Option.map_some', Option.some.injEq] at h'
          subst h'
          simp
        · rw [get?_modifyAt_ne _ _ _ _ hj] at h'
          have := hallb j w' h'
          simp [this, hj]
    have hga : getAvailableWorker (modifyAt (fun _ => (⟨false, []⟩ : WorkerSt)) s.pool i)
        = some (modifyAt (fun v => { v with busy := true })
            (modifyAt (fun _ => (⟨false, []⟩ : WorkerSt)) s.pool i) i, i) := by
      unfold getAvailableWorker
      rw [hfind]
    have hgi : (modifyAt (fun _ => (⟨false, []⟩ : WorkerSt)) s.pool i).get? i =
        some ⟨false, []⟩ := by
      rw [get?_modifyAt_self, hw]
      rfl
    have hgi2 : (modifyAt (fun _ => (⟨false, []⟩ : WorkerSt)) s.pool i)[i]? =
        some ⟨false, []⟩ := by
      rw [← List.get?_eq_getElem?]
      exact hgi
    have hstep : processNextFile
        ⟨modifyAt (fun _ => (⟨false, []⟩ : WorkerSt)) s.pool i,
          f :: rest, s.thumbnails ++ [(id, flag)], s.processedFiles + 1,
          s.totalFiles, b, s.nextId, s.dispatchLog, s.doubleSends⟩ =
        ⟨modifyAt (fun _ => (⟨true, [(s.nextId, f)]⟩ : WorkerSt)) s.pool i,
          rest, s.thumbnails ++ [(id, flag)], s.processedFiles + 1,
          s.totalFiles, b, s.nextId + 1, s.dispatchLog ++ [s.nextId], s.doubleSends⟩ := by
      unfold processNextFile
      rw [hga]
      simp only [hgi, Option.map_some', Option.getD_some]
      rw [modifyAt_modifyAt, modifyAt_modifyAt]
      rfl
    rw [hstep]
    have hft := flightTotal_modifyAt (fun _ => (⟨true, [(s.nextId, f)]⟩ : WorkerSt)) s.pool i w hw
    rw [hq] at hft
    simp only [List.length_cons, List.length_nil] at hft
    have hsc := stuckCount_modifyAt (fun _ => (⟨true, [(s.nextId, f)]⟩ : WorkerSt)) s.pool i w hw
    rw [hq] at hsc
    simp at hsc
    have hec := flightErrCount_modifyAt (fun _ => (⟨true, [(s.nextId, f)]⟩ : WorkerSt)) s.pool i w hw
    rw [hq] at hec
    have hecr : (r == Reply.error) = false := by
      cases r <;> simp_all
    simp only [List.countP_cons, List.countP_nil, hecr, if_false] at hec
    simp at hec
    refine ⟨?_, hv.totalEq, ?_, ?_, ?_, ?_, ?_, ?_, ?_, ?_, ?_, ?_, ?_, ?_⟩
    · show (modifyAt _ s.pool i).length = MAX_WORKERS
      rw [modifyAt_length]
      exact hv.poolLen
    · show s.nextId + 1 ≤ jobs.length
      omega
    · show rest = jobs.drop (s.nextId + 1)
      exact hdrop1.symm
    · show s.dispatchLog ++ [s.nextId] = List.range (s.nextId + 1)
      rw [hv.logEq, List.range_succ]
    · show s.processedFiles + 1 + rest.length + flightTotal (modifyAt _ s.pool i) = jobs.length
      have hcv := hv.conserve
      rw [hpend] at hcv
      simp only [List.length_cons] at hcv
      omega
    · intro j w' h'
      by_cases hj : j = i
      · subst hj
        rw [get?_modifyAt_self, hw] at h'
        simp only [Option.map_some', Option.some.injEq] at h'
        subst h'
        simp
      · rw [get?_modifyAt_ne _ _ _ _ hj] at h'
        exact hv.qlen j w' h'
    · intro j w' h' hne
      by_cases hj : j = i
      · subst hj
        rw [get?_modifyAt_self, hw] at h'
        simp only [Option.map_some', Option.some.injEq] at h'
        subst h'
        rfl
      · rw [get?_modifyAt_ne _ _ _ _ hj] at h'
        exact hv.loadedBusy j w' h' hne
    · intro _ j w' h'
      by_cases hj : j = i
      · subst hj
        rw [get?_modifyAt_self, hw] at h'
        simp only [Option.map_some', Option.some.injEq] at h'
        subst h'
        rfl
      · rw [get?_modifyAt_ne _ _ _ _ hj] at h'
        exact hallb j w' h'
    · intro id'
      have hpre := hv.exactOnce id'
      have hfc := count_flightIds_modifyAt (fun _ => (⟨true, [(s.nextId, f)]⟩ : WorkerSt))
        s.pool i w hw id'
      rw [hq] at hfc
      simp only [List.map_cons, List.map_nil] at hfc
      show (List.map Prod.fst (s.thumbnails ++ [(id, flag)])).count id' +
        (flightIds (modifyAt _ s.pool i)).count id' = if id' < s.nextId + 1 then 1 else 0
      rw [List.map_append, List.count_append]
      have hidne : id ≠ s.nextId := by omega
      have hcid : List.count id' [id] = if id' = id then 1 else 0 := count_single id' id
      have hcnx : List.count id' [s.nextId] = if id' = s.nextId then 1 else 0 :=
        count_single id' s.nextId
      rw [hcid, hcnx] at hfc
      rw [show (List.map Prod.fst [((id : Nat), flag)]) = [id] from rfl, hcid]
      by_cases h1 : id' = id
      · rw [if_pos h1] at hfc ⊢
        rw [if_neg (show ¬id' = s.nextId from by omega)] at hfc
        rw [if_pos (show id' < s.nextId from by omega)] at hpre
        rw [if_pos (show id' < s.nextId + 1 from by omega)]
        omega
      · rw [if_neg h1] at hfc ⊢
        by_cases h2 : id' = s.nextId
        · rw [if_pos h2] at hfc
          rw [if_neg (show ¬id' < s.nextId from by omega)] at hpre
          rw [if_pos (show id' < s.nextId + 1 from by omega)]
          omega
        · rw [if_neg h2] at hfc
          by_cases h3 : id' < s.nextId
          · rw [if_pos h3] at hpre
            rw [if_pos (by omega)]
            omega
          · rw [if_neg h3] at hpre
            rw [if_neg (by omega)]
            omega
    · intro j w' h'
      by_cases hj : j = i
      · subst hj
        rw [get?_modifyAt_self, hw] at h'
        simp only [Option.map_some', Option.some.injEq] at h'
        subst h'
        intro p hp
        simp only [List.mem_singleton] at hp
        subst hp
        exact hjf
      · rw [get?_modifyAt_ne _ _ _ _ hj] at h'
        exact hv.flightJob j w' h'
    · intro t ht
      rcases List.mem_append.mp ht with hold | hnew
      · exact hv.thumbOk t hold
      · simp only [List.mem_singleton] at hnew
        subst hnew
        exact ⟨r, hjid, hflag⟩
    · show stuckCount (modifyAt _ s.pool i) = _
      rw [List.countP_append, hcex]
      have hse := hv.stuckEq
      omega
    · show stuckCount (modifyAt _ s.pool i) + flightErrCount (modifyAt _ s.pool i) ≤
        (jobs.take (s.nextId + 1)).count Reply.error
      have hsb := hv.stuckBound
      have htk : jobs.take (s.nextId + 1) = jobs.take s.nextId ++ [f] := by
        rw [List.take_succ]
        have : jobs[s.nextId]? = some f := by
          rw [← List.get?_eq_getElem?]
          exact hjf
        rw [this]
        rfl
      rw [htk, List.count_append]
      have hcf : List.count Reply.error [f] = if f = Reply.error then 1 else 0 := by
        cases f <;> decide
      rw [hcf]
      omega

theorem dInv_deliver (jobs : List Reply) (s : DState) (hv : DInv jobs s) (i : Nat) :
    DInv jobs (deliver s i) := by
  cases hg : s.pool.get? i with
  | none =>
    have hid : deliver s i = s := by
      unfold deliver
      rw [hg]
      rfl
    rw [hid]
    exact hv
  | some w =>
    cases hq : w.inFlight with
    | nil =>
      have hid : deliver s i = s := by
        unfold deliver
        rw [hg]
        simp only [Option.map_some']
        rw [hq]
      rw [hid]
      exact hv
    | cons p restQ =>
      obtain ⟨id, r⟩ := p
      have hr1 : restQ = [] := by
        have hl := hv.qlen i w hg
        rw [hq] at hl
        simp at hl
        exact hl
      subst hr1
      cases r with
      | error =>
        have hdel : deliver s i =
            completionCheck
              { s with
                pool := modifyAt (fun v => { v with inFlight := [] }) s.pool i
                thumbnails := s.thumbnails ++ [(id, true)]
                processedFiles := s.processedFiles + 1 } := by
          unfold deliver
          rw [hg]
          simp only [Option.map_some']
          rw [hq]
        rw [hdel]
        rcases completionCheck_eq_or
            { s with
              pool := modifyAt (fun v => { v with inFlight := [] }) s.pool i
              thumbnails := s.thumbnails ++ [(id, true)]
              processedFiles := s.processedFiles + 1 } with hcc | hcc <;> rw [hcc]
        · exact dInv_error_core jobs s i id w hv hg hq false
        · exact dInv_error_core jobs s i id w hv hg hq s.isProcessing
      | completeSuccess =>
        have hdel : deliver s i =
            processNextFile
              { (completionCheck
                  { s with
                    pool := modifyAt (fun v => { v with inFlight := [] }) s.pool i
                    thumbnails := s.thumbnails ++ [(id, false)]
                    processedFiles := s.processedFiles + 1 }) with
                pool := markWorkerAvailable
                  (completionCheck
                    { s with
                      pool := modifyAt (fun v => { v with inFlight := [] }) s.pool i
                      thumbnails := s.thumbnails ++ [(id, false)]
                      processedFiles := s.processedFiles + 1 }).pool i } := by
          unfold deliver
          rw [hg]
          simp only [Option.map_some']
          rw [hq]
        rw [hdel]
        rcases completionCheck_eq_or
            { s with
              pool := modifyAt (fun v => { v with inFlight := [] }) s.pool i
              thumbnails := s.thumbnails ++ [(id, false)]
              processedFiles := s.processedFiles + 1 } with hcc | hcc <;> rw [hcc]
        · exact dInv_complete_core jobs s i id w Reply.completeSuccess false hv hg hq
            rfl (by decide) false
        · exact dInv_complete_core jobs s i id w Reply.completeSuccess false hv hg hq
            rfl (by decide) s.isProcessing
      | completeFailure =>
        have hdel : deliver s i =
            processNextFile
              { (completionCheck
                  { s with
                    pool := modifyAt (fun v => { v with inFlight := [] }) s.pool i
                    thumbnails := s.thumbnails ++ [(id, true)]
                    processedFiles := s.processedFiles + 1 }) with
                pool := markWorkerAvailable
                  (completionCheck
                    { s with
                      pool := modifyAt (fun v => { v with inFlight := [] }) s.pool i
                      thumbnails := s.thumbnails ++ [(id, true)]
                      processedFiles := s.processedFiles + 1 }).pool i } := by
          unfold deliver
          rw [hg]
          simp only [Option.map_some']
          rw [hq]
        rw [hdel]
        rcases completionCheck_eq_or
            { s with
              pool := modifyAt (fun v => { v with inFlight := [] }) s.pool i
              thumbnails := s.thumbnails ++ [(id, true)]
              processedFiles := s.processedFiles + 1 } with hcc | hcc <;> rw [hcc]
        · exact dInv_complete_core jobs s i id w Reply.completeFailure true hv hg hq
            rfl (by decide) false
        · exact dInv_complete_core jobs s i id w Reply.completeFailure true hv hg hq
            rfl (by decide) s.isProcessing

theorem dInv_runDeliveries (jobs : List Reply) :
    ∀ (ds : List Nat) (s : DState), DInv jobs s → DInv jobs (runDeliveries s ds) := by
  intro ds
  induction ds with
  | nil => intro s hv; exact hv
  | cons d ds ih =>
    intro s hv
    exact ih (deliver s d) (dInv_deliver jobs s hv d)

theorem flightIds_nil (pool : List WorkerSt) (h : ∀ w ∈ pool, w.inFlight = []) :
    flightIds pool = [] := by
  induction pool with
  | nil => rfl
  | cons w ws ih =>
    have h1 : flightIds (w :: ws) = (w.inFlight.map Prod.fst) ++ flightIds ws := rfl
    rw [h1, h w (by simp), ih (fun v hv => h v (by simp [hv]))]
    rfl

theorem flightTotal_nil (pool : List WorkerSt) (h : ∀ w ∈ pool, w.inFlight = []) :
    flightTotal pool = 0 := by
  induction pool with
  | nil => rfl
  | cons w ws ih =>
    show w.inFlight.length + flightTotal ws = 0
    rw [h w (by simp), ih (fun v hv => h v (by simp [hv]))]
    rfl

/-- The quiescent reading of the invariant: when every sent reply has been
handled and fewer than `MAX_WORKERS` jobs answer `process_error`, the
pending queue has fully drained, every job was dispatched,
`processedFiles` equals the batch size, and every job id has exactly one
thumbnail entry. -/
theorem dInv_quiescent (jobs : List Reply) (s : DState) (hv : DInv jobs s)
    (herr : jobs.count Reply.error < MAX_WORKERS)
    (hq : allDelivered s = true) :
    s.pending = [] ∧ s.nextId = jobs.length ∧ s.processedFiles = jobs.length ∧
    (∀ id, (s.thumbnails.map Prod.fst).count id = if id < jobs.length then 1 else 0) := by
  have hqe : ∀ w ∈ s.pool, w.inFlight = [] := by
    intro w hw
    have := List.all_eq_true.mp hq w hw
    simpa [List.isEmpty_iff] using this
  have hpend : s.pending = [] := by
    by_contra hpne
    have hallb := hv.allBusy hpne
    have hstuck : stuckCount s.pool = s.pool.length := by
      apply List.countP_eq_length.mpr
      intro w hwmem
      obtain ⟨j, hj⟩ := List.mem_iff_get?.mp hwmem
      have hb := hallb j w hj
      have he := hqe w hwmem
      simp [hb, he]
    have htake : (jobs.take s.nextId).count Reply.error ≤ jobs.count Reply.error :=
      (List.take_sublist _ _).count_le _
    have hsb := hv.stuckBound
    rw [hstuck, hv.poolLen] at hsb
    unfold MAX_WORKERS at herr hsb
    omega
  have hnext : s.nextId = jobs.length := by
    have hd := hv.pendEq
    rw [hpend] at hd
    have hle : jobs.length ≤ s.nextId := List.drop_eq_nil_iff_le.mp hd.symm
    have := hv.nextLe
    omega
  have hproc : s.processedFiles = jobs.length := by
    have hc := hv.conserve
    rw [hpend, flightTotal_nil s.pool hqe] at hc
    simpa using hc
  refine ⟨hpend, hnext, hproc, ?_⟩
  intro id
  have he := hv.exactOnce id
  rw [flightIds_nil s.pool hqe] at he
  simp only [List.count_nil, Nat.add_zero] at he
  rw [he, hnext]

theorem count_error_one (jobs : List Reply) :
    ∀ (k : Nat), jobs.get? k = some Reply.error →
      (∀ j r, j ≠ k → jobs.get? j = some r → r = Reply.completeSuccess) →
      jobs.count Reply.error = 1 := by
  induction jobs with
  | nil => intro k hk _; simp at hk
  | cons x xs ih =>
    intro k hk hothers
    cases k with
    | zero =>
      simp only [List.get?, Option.some.injEq] at hk
      subst hk
      have hxs : Reply.error ∉ xs := by
        intro hmem
        obtain ⟨j, hj⟩ := List.mem_iff_get?.mp hmem
        have := hothers (j + 1) Reply.error (by omega) (by simpa using hj)
        cases this
      rw [List.count_cons_self, List.count_eq_zero_of_not_mem hxs]
    | succ k' =>
      have hx : x = Reply.completeSuccess := hothers 0 x (by omega) rfl
      have hcnt := ih k' (by simpa using hk)
        (fun j r hj hjr => hothers (j + 1) r (by omega) (by simpa using hjr))
      rw [List.count_cons]
      rw [hcnt]
      subst hx
      simp

/-! ### C3: the pool never exceeds MAX_WORKERS -/

theorem poolLen_le_processNextFile (s : DState)
    (h : s.pool.length ≤ MAX_WORKERS) :
    (processNextFile s).pool.length ≤ MAX_WORKERS := by
  unfold processNextFile
  cases hp : s.pending with
  | nil => exact h
  | cons f rest =>
    cases hf : findIdleIdx s.pool with
    | some i =>
      simp only [getAvailableWorker, hf]
      rw [modifyAt_length, modifyAt_length]
      exact h
    | none =>
      simp only [getAvailableWorker, hf]
      by_cases hlt : s.pool.length < MAX_WORKERS
      · simp only [hlt, if_pos]
        rw [modifyAt_length]
        simp
        unfold MAX_WORKERS at hlt ⊢
        omega
      · simp only [hlt, if_neg, if_false]
        rw [modifyAt_length]
        exact h

theorem poolLen_le_iterateDispatch (k : Nat) :
    ∀ s : DState, s.pool.length ≤ MAX_WORKERS →
      (iterateDispatch k s).pool.length ≤ MAX_WORKERS := by
  induction k with
  | zero => intro s h; exact h
  | succ k ih =>
    intro s h
    exact ih (processNextFile s) (poolLen_le_processNextFile s h)

theorem poolLen_le_processFiles (s : DState) (files : List Reply)
    (h : s.pool.length ≤ MAX_WORKERS) :
    (processFiles s files).pool.length ≤ MAX_WORKERS := by
  unfold processFiles
  split
  · exact h
  · apply poolLen_le_iterateDispatch
    show (initPoolIfEmpty s.pool).length ≤ MAX_WORKERS
    unfold initPoolIfEmpty
    split
    · simp
    · exact h

theorem poolLen_le_deliver (s : DState) (i : Nat)
    (h : s.pool.length ≤ MAX_WORKERS) :
    (deliver s i).pool.length ≤ MAX_WORKERS := by
  unfold deliver
  cases hg : s.pool.get? i with
  | none => exact h
  | some w =>
    simp only [Option.map_some']
    cases hq : w.inFlight with
    | nil => exact h
    | cons p restQ =>
      obtain ⟨id, r⟩ := p
      have hmod : (modifyAt (fun v => { v with inFlight := restQ }) s.pool i).length
          ≤ MAX_WORKERS := by
        rw [modifyAt_length]
        exact h
      cases r
      · apply poolLen_le_processNextFile
        show (markWorkerAvailable (completionCheck _).pool i).length ≤ MAX_WORKERS
        rw [markWorkerAvailable, modifyAt_length, completionCheck_pool]
        exact hmod
      · apply poolLen_le_processNextFile
        show (markWorkerAvailable (completionCheck _).pool i).length ≤ MAX_WORKERS
        rw [markWorkerAvailable, modifyAt_length, completionCheck_pool]
        exact hmod
      · show (completionCheck _).pool.length ≤ MAX_WORKERS
        rw [completionCheck_pool]
        exact hmod

/-- C3: along every schedule of submissions and reply deliveries from page
load, the worker pool holds at most `MAX_WORKERS` (3) workers. -/
theorem pool_capacity (es : List Event) :
    (run dInit es).pool.length ≤ MAX_WORKERS := by
  have hgen : ∀ (es : List Event) (s : DState), s.pool.length ≤ MAX_WORKERS →
      (run s es).pool.length ≤ MAX_WORKERS := by
    intro es
    induction es with
    | nil => intro s h; exact h
    | cons e es ih =>
      intro s h
      cases e with
      | submit files => exact ih _ (poolLen_le_processFiles s files h)
      | deliverMsg i => exact ih _ (poolLen_le_deliver s i h)
  exact hgen es dInit (by simp [dInit])

/-! ### C8: FIFO dispatch -/

/-- C8: `processFiles` enqueues the batch in arrival order, immediately
dispatches `min(MAX_WORKERS, totalJobs)` jobs, and at every later point the
dispatch log is exactly `[0, …, d-1]` (the first `d` jobs in submission
order) while the pending queue is the matching suffix of the submission
list, for every delivery schedule. -/
theorem fifo_dispatch (jobs : List Reply) (ds : List Nat) (hne : jobs ≠ []) :
    (processFiles dInit jobs).nextId = min MAX_WORKERS jobs.length ∧
    (runDeliveries (processFiles dInit jobs) ds).dispatchLog =
      List.range (runDeliveries (processFiles dInit jobs) ds).nextId ∧
    (runDeliveries (processFiles dInit jobs) ds).pending =
      jobs.drop (runDeliveries (processFiles dInit jobs) ds).nextId := by
  have hv := dInv_runDeliveries jobs ds _ (dInv_processFiles jobs hne)
  refine ⟨?_, hv.logEq, hv.pendEq⟩
  match jobs, hne with
  | [a], _ =>
    rw [processFiles_one]
    rfl
  | [a, b], _ =>
    rw [processFiles_two]
    rfl
  | a :: b :: c :: rest, _ =>
    rw [processFiles_three]
    show (3 : Nat) = min MAX_WORKERS (a :: b :: c :: rest).length
    simp only [List.length_cons]
    unfold MAX_WORKERS
    omega

/-- Witness for `fifo_dispatch` on four all-success jobs after one
delivery. -/
theorem fifo_dispatch_witness :
    ([Reply.completeSuccess, Reply.completeSuccess, Reply.completeSuccess,
        Reply.completeSuccess] ≠ []) ∧
    ((processFiles dInit [Reply.completeSuccess, Reply.completeSuccess,
        Reply.completeSuccess, Reply.completeSuccess]).nextId =
      min MAX_WORKERS [Reply.completeSuccess, Reply.completeSuccess,
        Reply.completeSuccess, Reply.completeSuccess].length ∧
      (runDeliveries (processFiles dInit [Reply.completeSuccess, Reply.completeSuccess,
          Reply.completeSuccess, Reply.completeSuccess]) [0]).dispatchLog =
        List.range (runDeliveries (processFiles dInit [Reply.completeSuccess,
          Reply.completeSuccess, Reply.completeSuccess, Reply.completeSuccess]) [0]).nextId ∧
      (runDeliveries (processFiles dInit [Reply.completeSuccess, Reply.completeSuccess,
          Reply.completeSuccess, Reply.completeSuccess]) [0]).pending =
        [Reply.completeSuccess, Reply.completeSuccess, Reply.completeSuccess,
          Reply.completeSuccess].drop
          (runDeliveries (processFiles dInit [Reply.completeSuccess, Reply.completeSuccess,
            Reply.completeSuccess, Reply.completeSuccess]) [0]).nextId) :=
  ⟨by decide, fifo_dispatch _ [0] (by decide)⟩

/-! ### C4: batch completion accounting -/

/-- C4 counterexample: four jobs that all answer `process_error`.  After the
three initial dispatches every reply of every sent job has been delivered
and handled, yet `processedFiles` stops at 3 while `totalFiles` is 4, the
fourth job is still pending forever, and its id (3) never gets a thumbnail
entry. -/
theorem batch_stall_cex :
    allDelivered (runDeliveries
      (processFiles dInit [Reply.error, Reply.error, Reply.error, Reply.error])
      [0, 1, 2]) = true ∧
    (runDeliveries (processFiles dInit [Reply.error, Reply.error, Reply.error, Reply.error])
      [0, 1, 2]).processedFiles = 3 ∧
    (runDeliveries (processFiles dInit [Reply.error, Reply.error, Reply.error, Reply.error])
      [0, 1, 2]).totalFiles = 4 ∧
    (runDeliveries (processFiles dInit [Reply.error, Reply.error, Reply.error, Reply.error])
      [0, 1, 2]).pending ≠ [] ∧
    ((runDeliveries (processFiles dInit [Reply.error, Reply.error, Reply.error, Reply.error])
      [0, 1, 2]).thumbnails.map Prod.fst).count 3 = 0 := by decide

/-- C4 amended: for a batch in which fewer than `MAX_WORKERS` jobs reply
`process_error` (in particular when every failure is reported as
`process_complete` with `success: false`), once every sent job's reply has
been delivered and handled, `processedFiles = totalFiles = jobs.length`,
the pending queue is empty, and every job id has exactly one thumbnail
entry — under every delivery schedule. -/
theorem batch_completion (jobs : List Reply) (ds : List Nat) (hne : jobs ≠ [])
    (herr : jobs.count Reply.error < MAX_WORKERS)
    (hq : allDelivered (runDeliveries (processFiles dInit jobs) ds) = true) :
    (runDeliveries (processFiles dInit jobs) ds).processedFiles =
      (runDeliveries (processFiles dInit jobs) ds).totalFiles ∧
    (runDeliveries (processFiles dInit jobs) ds).totalFiles = jobs.length ∧
    (runDeliveries (processFiles dInit jobs) ds).pending = [] ∧
    (∀ id, ((runDeliveries (processFiles dInit jobs) ds).thumbnails.map Prod.fst).count id =
      if id < jobs.length then 1 else 0) := by
  have hv := dInv_runDeliveries jobs ds _ (dInv_processFiles jobs hne)
  obtain ⟨hp, hn, hpr, hcount⟩ := dInv_quiescent jobs _ hv herr hq
  refine ⟨?_, hv.totalEq, hp, hcount⟩
  rw [hpr, hv.totalEq]

/-- Witness for `batch_completion`: four jobs, one failing via
`process_complete`/`success: false`, driven to quiescence. -/
theorem batch_completion_witness :
    ([Reply.completeSuccess, Reply.completeFailure, Reply.completeSuccess,
        Reply.completeSuccess] ≠ []) ∧
    ([Reply.completeSuccess, Reply.completeFailure, Reply.completeSuccess,
        Reply.completeSuccess].count Reply.error < MAX_WORKERS) ∧
    allDelivered (runDeliveries (processFiles dInit [Reply.completeSuccess,
      Reply.completeFailure, Reply.completeSuccess, Reply.completeSuccess])
      [0, 1, 2, 0]) = true ∧
    ((runDeliveries (processFiles dInit [Reply.completeSuccess, Reply.completeFailure,
        Reply.completeSuccess, Reply.completeSuccess]) [0, 1, 2, 0]).processedFiles =
      (runDeliveries (processFiles dInit [Reply.completeSuccess, Reply.completeFailure,
        Reply.completeSuccess, Reply.completeSuccess]) [0, 1, 2, 0]).totalFiles ∧
      (runDeliveries (processFiles dInit [Reply.completeSuccess, Reply.completeFailure,
        Reply.completeSuccess, Reply.completeSuccess]) [0, 1, 2, 0]).totalFiles = 4 ∧
      (runDeliveries (processFiles dInit [Reply.completeSuccess, Reply.completeFailure,
        Reply.completeSuccess, Reply.completeSuccess]) [0, 1, 2, 0]).pending = [] ∧
      (∀ id, ((runDeliveries (processFiles dInit [Reply.completeSuccess,
          Reply.completeFailure, Reply.completeSuccess, Reply.completeSuccess])
          [0, 1, 2, 0]).thumbnails.map Prod.fst).count id =
        if id < 4 then 1 else 0)) :=
  ⟨by decide, by decide, by decide,
    batch_completion [Reply.completeSuccess, Reply.completeFailure,
      Reply.completeSuccess, Reply.completeSuccess] [0, 1, 2, 0]
      (by decide) (by decide) (by decide)⟩

/-! ### C5: fault isolation -/

/-- C5 counterexample: jobs `[error, ok, ok, ok, ok]` on the capacity-3
pool, every reply delivered: the failure outcome for job 0 is recorded, but
its unit is never released — worker 0 still has `busy = true` at
quiescence, contradicting the claim that the dispatcher releases the
failing job's unit. -/
theorem failed_unit_not_released_cex :
    allDelivered (runDeliveries (processFiles dInit
      [Reply.error, Reply.completeSuccess, Reply.completeSuccess,
        Reply.completeSuccess, Reply.completeSuccess]) [0, 1, 2, 1, 2]) = true ∧
    ((0 : Nat), true) ∈ (runDeliveries (processFiles dInit
      [Reply.error, Reply.completeSuccess, Reply.completeSuccess,
        Reply.completeSuccess, Reply.completeSuccess]) [0, 1, 2, 1, 2]).thumbnails ∧
    (runDeliveries (processFiles dInit
      [Reply.error, Reply.completeSuccess, Reply.completeSuccess,
        Reply.completeSuccess, Reply.completeSuccess]) [0, 1, 2, 1, 2]).pool.get? 0 =
      some ⟨true, []⟩ := by decide

/-- C5 amended: if exactly one job of the batch replies `process_error` and
all others succeed, then once every sent reply has been delivered, the
failure outcome is recorded, all other jobs complete with success entries
(`processedFiles` reaches the batch size), but the failing job's unit is
not released: some worker stays `busy` with no outstanding message. -/
theorem fault_isolation (jobs : List Reply) (ds : List Nat) (k : Nat)
    (hk : jobs.get? k = some Reply.error)
    (hothers : ∀ j r, j ≠ k → jobs.get? j = some r → r = Reply.completeSuccess)
    (hq : allDelivered (runDeliveries (processFiles dInit jobs) ds) = true) :
    (runDeliveries (processFiles dInit jobs) ds).processedFiles = jobs.length ∧
    ((k, true) ∈ (runDeliveries (processFiles dInit jobs) ds).thumbnails) ∧
    (∀ id, id < jobs.length → id ≠ k →
      ((id, false) ∈ (runDeliveries (processFiles dInit jobs) ds).thumbnails)) ∧
    (∃ i w, (runDeliveries (processFiles dInit jobs) ds).pool.get? i = some w ∧
      w.busy = true ∧ w.inFlight = []) := by
  have hne : jobs ≠ [] := by
    intro hnil
    rw [hnil] at hk
    simp at hk
  have herr : jobs.count Reply.error < MAX_WORKERS := by
    rw [count_error_one jobs k hk hothers]
    unfold MAX_WORKERS
    omega
  have hv := dInv_runDeliveries jobs ds _ (dInv_processFiles jobs hne)
  obtain ⟨hp, hn, hpr, hcount⟩ := dInv_quiescent jobs _ hv herr hq
  have hmemOf : ∀ id, id < jobs.length →
      ∃ flag, ((id, flag) ∈ (runDeliveries (processFiles dInit jobs) ds).thumbnails ∧
        ∃ r, jobs.get? id = some r ∧ flag = r.isFailure) := by
    intro id hid
    have hc := hcount id
    rw [if_pos hid] at hc
    have hmem : id ∈ ((runDeliveries (processFiles dInit jobs) ds).thumbnails.map Prod.fst) :=
      List.count_pos_iff.mp (by omega)
    obtain ⟨t, htmem, hteq⟩ := List.mem_map.mp hmem
    obtain ⟨r, hr1, hr2⟩ := hv.thumbOk t htmem
    refine ⟨t.2, ?_, r, ?_, hr2⟩
    · rw [← hteq]
      simpa using htmem
    · rw [← hteq]
      exact hr1
  have hklt : k < jobs.length := by
    by_contra hge
    rw [List.get?_eq_none.mpr (by omega)] at hk
    cases hk
  refine ⟨hpr, ?_, ?_, ?_⟩
  · obtain ⟨flag, hmem, r, hr1, hr2⟩ := hmemOf k hklt
    rw [hk] at hr1
    have hre : r = Reply.error := Option.some.inj hr1.symm
    subst hre
    have hflag : flag = true := by rw [hr2]; rfl
    rw [hflag] at hmem
    exact hmem
  · intro id hid hne2
    obtain ⟨flag, hmem, r, hr1, hr2⟩ := hmemOf id hid
    have hrc : r = Reply.completeSuccess := hothers id r hne2 hr1
    subst hrc
    have hflag : flag = false := by rw [hr2]; rfl
    rw [hflag] at hmem
    exact hmem
  · have hthk : ((k, true) ∈ (runDeliveries (processFiles dInit jobs) ds).thumbnails) := by
      obtain ⟨flag, hmem, r, hr1, hr2⟩ := hmemOf k hklt
      rw [hk] at hr1
      have hre : r = Reply.error := Option.some.inj hr1.symm
      subst hre
      have hflag : flag = true := by rw [hr2]; rfl
      rw [hflag] at hmem
      exact hmem
    have hstuck : 0 < stuckCount (runDeliveries (processFiles dInit jobs) ds).pool := by
      rw [hv.stuckEq]
      apply List.countP_pos.mpr
      have hk2 : jobs[k]? = some Reply.error := by
        rw [← List.get?_eq_getElem?]
        exact hk
      exact ⟨(k, true), hthk, by simp [hk2]⟩
    obtain ⟨w, hwmem, hwp⟩ := List.countP_pos.mp hstuck
    obtain ⟨i, hi⟩ := List.mem_iff_get?.mp hwmem
    simp only [Bool.and_eq_true, List.isEmpty_iff] at hwp
    exact ⟨i, w, hi, hwp.1, hwp.2⟩

/-- Witness for `fault_isolation` on the concrete five-job batch. -/
theorem fault_isolation_witness :
    ([Reply.error, Reply.completeSuccess, Reply.completeSuccess,
        Reply.completeSuccess, Reply.completeSuccess].get? 0 = some Reply.error) ∧
    allDelivered (runDeliveries (processFiles dInit
      [Reply.error, Reply.completeSuccess, Reply.completeSuccess,
        Reply.completeSuccess, Reply.completeSuccess]) [0, 1, 2, 1, 2]) = true ∧
    ((runDeliveries (processFiles dInit
        [Reply.error, Reply.completeSuccess, Reply.completeSuccess,
          Reply.completeSuccess, Reply.completeSuccess]) [0, 1, 2, 1, 2]).processedFiles = 5 ∧
      (∃ i w, (runDeliveries (processFiles dInit
          [Reply.error, Reply.completeSuccess, Reply.completeSuccess,
            Reply.completeSuccess, Reply.completeSuccess]) [0, 1, 2, 1, 2]).pool.get? i =
          some w ∧ w.busy = true ∧ w.inFlight = [])) := by
  have hothers : ∀ j r, j ≠ 0 →
      ([Reply.error, Reply.completeSuccess, Reply.completeSuccess,
        Reply.completeSuccess, Reply.completeSuccess] : List Reply).get? j = some r →
      r = Reply.completeSuccess := by
    intro j r hj hjr
    rcases j with _ | _ | _ | _ | _ | j
    · exact absurd rfl hj
    · exact (Option.some.inj hjr).symm
    · exact (Option.some.inj hjr).symm
    · exact (Option.some.inj hjr).symm
    · exact (Option.some.inj hjr).symm
    · simp at hjr
  have h := fault_isolation
    [Reply.error, Reply.completeSuccess, Reply.completeSuccess,
      Reply.completeSuccess, Reply.completeSuccess] [0, 1, 2, 1, 2] 0
    (by decide) hothers (by decide)
  exact ⟨by decide, by decide, h.1, h.2.2.2⟩
